/-
Verification of the twin-operator reconciliation core (drogue-iot/twin-operator).

Shallow embedding of `src/twin.rs` (TwinReconciler: state machine + template
differencer) and `src/operator.rs` (event handling).  External collaborators
(twin API client, registry client) are modelled as a `World` giving the
response of each external call; reconciler operations return their outcome
together with the trace of external calls they issued.

Map models:
- `indexmap::IndexMap` is modelled as an insertion-ordered association list;
  its `entry` API mutates occupied entries in place and appends vacant ones,
  and `remove` is indexmap's `swap_remove` (swap the removed entry with the
  last entry, then pop), which is what the crate documents `remove` to be.
- `std::collections::BTreeMap` is modelled as an association list kept in
  ascending key order; `remove` removes the key in place.
- The residual-key set in the sync functions is a `HashSet` in the source,
  whose iteration order is unspecified; it is modelled here as the target
  map's key order.  All lookup-level results proved below are independent of
  that order, and the order-sensitive results (idempotence, the no-deletion
  ordering theorem) concern runs in which the residual set is empty.
-/
import Mathlib

namespace TwinOperator

/-! ### Association-list primitives -/

/-- Lookup by key in an association list (first match). -/
def aget {α : Type} : List (String × α) → String → Option α
  | [], _ => none
  | p :: t, k => if p.1 = k then some p.2 else aget t k

/-- The key list of an association list. -/
def akeys {α : Type} (l : List (String × α)) : List String := l.map Prod.fst

/-- The map invariant: keys are pairwise distinct. -/
def NodupKeys {α : Type} (l : List (String × α)) : Prop := (akeys l).Nodup

instance {α : Type} (l : List (String × α)) : Decidable (NodupKeys l) := by
  unfold NodupKeys; infer_instance

/-- In-place mutation of the entry with the given key (`entry` / `Occupied`:
the position of the entry is unchanged). -/
def mutateAt {α : Type} (k : String) (f : α → α) (l : List (String × α)) :
    List (String × α) :=
  l.map fun p => if p.1 = k then (p.1, f p.2) else p

/-- Model of `BTreeMap::insert`: insert in ascending key order, replacing an existing
entry with the same key. -/
def btreeInsert {α : Type} (k : String) (v : α) : List (String × α) → List (String × α)
  | [] => [(k, v)]
  | p :: t =>
    if k < p.1 then (k, v) :: p :: t
    else if k = p.1 then (k, v) :: t
    else p :: btreeInsert k v t

/-- Model of `BTreeMap::remove`: remove the entry with the given key in place. -/
def eraseKey {α : Type} (k : String) : List (String × α) → List (String × α)
  | [] => []
  | p :: t => if p.1 = k then t else p :: eraseKey k t

/-- Split an association list at the first entry with the given key:
returns the prefix without the key, and (if found) the suffix after it. -/
def splitAtKey {α : Type} (k : String) :
    List (String × α) → List (String × α) × Option (List (String × α))
  | [] => ([], none)
  | p :: t =>
    if p.1 = k then ([], some t)
    else ((p :: (splitAtKey k t).1), (splitAtKey k t).2)

/-- Model of `IndexMap::remove`, i.e. `swap_remove`: swap the removed entry with the
last entry of the map, then pop the last entry. -/
def swapRemove {α : Type} (k : String) (l : List (String × α)) : List (String × α) :=
  match splitAtKey k l with
  | (_, none) => l
  | (pre, some post) =>
    match post.getLast? with
    | none => pre
    | some last => pre ++ last :: post.dropLast

/-! ### The generic sync functions (`TwinReconciler::sync_indexmap`,
`TwinReconciler::sync_btreemap`). -/

/-- One iteration of the config loop of `sync_indexmap`: occupied entries are
mutated in place, vacant entries are created and appended. -/
def syncStep {T R : Type} (c : T → R) (m : T → R → R)
    (acc : List (String × R)) (p : String × T) : List (String × R) :=
  match aget acc p.1 with
  | some _ => mutateAt p.1 (m p.2) acc
  | none => acc ++ [(p.1, c p.2)]

/-- The config loop of `sync_indexmap`. -/
def syncPhase1 {T R : Type} (config : List (String × T)) (target : List (String × R))
    (c : T → R) (m : T → R → R) : List (String × R) :=
  config.foldl (syncStep c m) target

/-- The residual key set after the config loop: the target's original keys
that do not occur in the config (modelled in target key order). -/
def staleKeys {T R : Type} (config : List (String × T)) (target : List (String × R)) :
    List String :=
  (akeys target).filter fun k => (aget config k).isNone

/-- Model of `TwinReconciler::sync_indexmap`: sync the template map `config` into the
insertion-ordered map `target`, creating vacant entries with `c`, mutating
occupied entries with `m`, and swap-removing stale keys. -/
def syncIndexmap {T R : Type} (config : List (String × T)) (target : List (String × R))
    (c : T → R) (m : T → R → R) : List (String × R) :=
  (staleKeys config target).foldl (fun acc k => swapRemove k acc)
    (syncPhase1 config target c m)

/-- One iteration of the config loop of `sync_btreemap`. -/
def syncBtreeStep {T R : Type} (c : T → R) (m : T → R → R)
    (acc : List (String × R)) (p : String × T) : List (String × R) :=
  match aget acc p.1 with
  | some _ => mutateAt p.1 (m p.2) acc
  | none => btreeInsert p.1 (c p.2) acc

/-- The config loop of `sync_btreemap`. -/
def syncBtreePhase1 {T R : Type} (config : List (String × T)) (target : List (String × R))
    (c : T → R) (m : T → R → R) : List (String × R) :=
  config.foldl (syncBtreeStep c m) target

/-- Model of `TwinReconciler::sync_btreemap`. -/
def syncBtreemap {T R : Type} (config : List (String × T)) (target : List (String × R))
    (c : T → R) (m : T → R → R) : List (String × R) :=
  (staleKeys config target).foldl (fun acc k => eraseKey k acc)
    (syncBtreePhase1 config target c m)

/-- The pointwise effect of an occupied-entry pass: entries whose key occurs
in the config get their value mutated, all others are untouched. -/
def applyMut {T R : Type} (config : List (String × T)) (m : T → R → R)
    (p : String × R) : String × R :=
  match aget config p.1 with
  | some t => (p.1, m t p.2)
  | none => p

/-- The entries created by a sync pass: one per config key absent from the
target, in config order. -/
def createdOf {T R : Type} (config : List (String × T)) (target : List (String × R))
    (c : T → R) : List (String × R) :=
  (config.filter fun p => (aget target p.1).isNone).map fun p => (p.1, c p.2)

/-! ### Data model -/

/-- A JSON value (`serde_json::Value`), restricted to the shapes the core
manipulates; the differencer only ever stores `Value::Null`. -/
inductive Value where
  | null
  | bool (b : Bool)
  | num (n : Int)
  | str (s : String)
  deriving DecidableEq, Repr

/-- Model of `drogue_doppelgaenger_model::SyntheticType`. -/
inductive SyntheticType where
  | javaScript (source : String)
  | alias_ (target : String)
  deriving DecidableEq, Repr

/-- Model of `config::Synthetic` (the template-side synthetic-feature definition). -/
inductive Synthetic where
  | javaScript (source : String)
  | alias_ (target : String)
  deriving DecidableEq, Repr

/-- Model of `impl From<Synthetic> for SyntheticType` (config.rs). -/
def Synthetic.toType : Synthetic → SyntheticType
  | .javaScript s => .javaScript s
  | .alias_ a => .alias_ a

/-- Model of `config::Code` (the template-side script definition). -/
inductive TemplCode where
  | javaScript (source : String)
  deriving DecidableEq, Repr

/-- Model of `drogue_doppelgaenger_model::Code`. -/
inductive Code where
  | javaScript (source : String)
  deriving DecidableEq, Repr

/-- Model of `impl From<Code> for drogue_doppelgaenger_model::Code` (config.rs). -/
def TemplCode.toCode : TemplCode → Code
  | .javaScript s => .javaScript s

/-- Model of `config::Timer` (template-side timer definition). Periods are modelled
as natural numbers of time units. -/
structure TemplTimer where
  code : TemplCode
  period : Nat
  deriving DecidableEq, Repr

/-- Model of `config::Reconciliation` (template side). -/
structure TemplReconciliation where
  changed : List (String × TemplCode)
  deleting : List (String × TemplCode)
  timers : List (String × TemplTimer)
  deriving DecidableEq, Repr

/-- Model of `config::ThingTemplate`. -/
structure ThingTemplate where
  reconciliation : TemplReconciliation
  synthetics : List (String × Synthetic)
  deriving DecidableEq, Repr

/-- Model of `drogue_doppelgaenger_model::SyntheticFeature`: definition-controlled
field `type`; runtime fields `value` and `last_update` (timestamps are
modelled as naturals). -/
structure SyntheticFeature where
  type : SyntheticType
  value : Value
  last_update : Nat
  deriving DecidableEq, Repr

/-- Model of `drogue_doppelgaenger_model::Changed`: definition-controlled `code`;
runtime field `last_log`. -/
structure Changed where
  code : Code
  last_log : List String
  deriving DecidableEq, Repr

/-- Model of `drogue_doppelgaenger_model::Deleting`. -/
structure Deleting where
  code : Code
  deriving DecidableEq, Repr

/-- Model of `drogue_doppelgaenger_model::Timer`: definition-controlled `code` and
`period`; the rest are runtime-only fields. -/
structure Timer where
  code : Code
  period : Nat
  stopped : Bool
  last_started : Option Nat
  last_run : Option Nat
  last_log : List String
  initial_delay : Option Nat
  deriving DecidableEq, Repr

/-- The `reconciliation` block of a Thing: `changed` and `deleting` handler
maps and the `timers` map, all insertion-ordered (`IndexMap`). -/
structure Reconciliation where
  changed : List (String × Changed)
  deleting : List (String × Deleting)
  timers : List (String × Timer)
  deriving DecidableEq, Repr

/-- Thing metadata: identity plus free-form annotations (`BTreeMap`). -/
structure ThingMetadata where
  application : String
  name : String
  annotations : List (String × String)
  labels : List (String × String)
  deriving DecidableEq, Repr

/-- Model of `drogue_doppelgaenger_model::Thing`. Besides the maps the differencer
manages (`synthetic_state`, a `BTreeMap`, and the `reconciliation` block),
the Thing carries metadata and further state maps (reported/desired state)
that the controller never touches. -/
structure Thing where
  metadata : ThingMetadata
  reported_state : List (String × Value)
  desired_state : List (String × Value)
  synthetic_state : List (String × SyntheticFeature)
  reconciliation : Reconciliation
  deriving DecidableEq, Repr

/-- Model of `Thing::new(application, name)`: a fresh Thing with empty state. -/
def Thing.new (application name : String) : Thing where
  metadata := { application, name, annotations := [], labels := [] }
  reported_state := []
  desired_state := []
  synthetic_state := []
  reconciliation := { changed := [], deleting := [], timers := [] }

/-- Device metadata (`drogue_client::registry::v1`): identity, labels, the
optional soft-deletion marker and the finalizer list. -/
structure DeviceMetadata where
  application : String
  name : String
  labels : List (String × String)
  deletion_timestamp : Option Nat
  finalizers : List String
  deriving DecidableEq, Repr

/-- Model of `drogue_client::registry::v1::Device` (the parts the controller reads). -/
structure Device where
  metadata : DeviceMetadata
  deriving DecidableEq, Repr

/-- Model of `CommonMetadataMut::ensure_finalizer`: append the finalizer if absent;
returns the new metadata and whether the finalizer was added. -/
def ensureFinalizer (md : DeviceMetadata) (f : String) : DeviceMetadata × Bool :=
  if f ∈ md.finalizers then (md, false)
  else ({ md with finalizers := md.finalizers ++ [f] }, true)

/-- Model of `CommonMetadataMut::remove_finalizer`. -/
def removeFinalizer (md : DeviceMetadata) (f : String) : DeviceMetadata :=
  { md with finalizers := md.finalizers.filter fun x => x ≠ f }

/-- Model of `drogue_client::error::ClientError`: the variants the reconciler
distinguishes — a bare response status, a service error carrying a status
code and a decoded error payload, and the remaining transport-level errors. -/
inductive ClientError where
  | Request (msg : String)
  | Response (status : Nat)
  | Service (code : Nat) (error : String)
  | Internal (msg : String)
  deriving DecidableEq, Repr

def NOT_FOUND : Nat := 404
def CONFLICT : Nat := 409

/-- Model of `reconciler::Outcome`. -/
inductive Outcome where
  | Complete
  | Retry
  deriving DecidableEq, Repr

/-- One external call issued by the controller. -/
inductive Call where
  | deleteThing (application name : String)
  | getThing (application name : String)
  | createThing (thing : Thing)
  | updateThing (thing : Thing)
  | updateDevice (device : Device)
  | getDevice (application name : String)
  deriving DecidableEq, Repr

/-- The responses of the external collaborators (twin API and registry),
as a function of each call's arguments. -/
structure World where
  deleteThing : String → String → Except ClientError Bool
  getThing : String → String → Except ClientError (Option Thing)
  createThing : Thing → Except ClientError Unit
  updateThing : Thing → Except ClientError Unit
  updateDevice : Device → Except ClientError Unit
  getDevice : String → String → Except ClientError (Option Device)

/-- Model of `twin::ReconcilerConfig`. -/
structure ReconcilerConfig where
  application : String
  label_selector : List (String × String)

def FINALIZER : String := "twin"

/-! ### The reconciler (`src/twin.rs`) -/

/-- Model of `TwinReconciler::matches`: every selector pair must be present verbatim
in the device's labels. -/
def selMatches (cfg : ReconcilerConfig) (device : Device) : Bool :=
  cfg.label_selector.all fun p => aget device.metadata.labels p.1 = some p.2

/-- Model of `TwinReconciler::sensor_thing`. -/
def sensorThing (device : String) : String := device ++ "/sensor"

/-- The synthetic-feature creator of `configure_sensor`: runtime `value` is
`Value::Null` and `last_update` is the sync timestamp (`Utc::now()`). -/
def synCreate (now : Nat) : Synthetic → SyntheticFeature :=
  fun type => { type := type.toType, value := .null, last_update := now }

/-- The synthetic-feature mutator of `configure_sensor`: only `type` is
overwritten. -/
def synMutate : Synthetic → SyntheticFeature → SyntheticFeature :=
  fun type current => { current with type := type.toType }

/-- The deleting-handler creator of `configure_sensor`. -/
def delCreate : TemplCode → Deleting :=
  fun code => { code := code.toCode }

/-- The deleting-handler mutator of `configure_sensor`: only `code` is
overwritten. -/
def delMutate : TemplCode → Deleting → Deleting :=
  fun code current => { current with code := code.toCode }

/-- The changed-handler creator of `configure_sensor`: runtime `last_log`
starts empty (`Default::default()`). -/
def chgCreate : TemplCode → Changed :=
  fun code => { code := code.toCode, last_log := [] }

/-- The changed-handler mutator of `configure_sensor`: only `code` is
overwritten. -/
def chgMutate : TemplCode → Changed → Changed :=
  fun code current => { current with code := code.toCode }

/-- The timer creator of `configure_sensor`: runtime fields start at their
defaults (not stopped, no run/start timestamps, empty log, no delay). -/
def timerCreate : TemplTimer → Timer :=
  fun timer =>
    { code := timer.code.toCode, period := timer.period, stopped := false,
      last_started := none, last_run := none, last_log := [], initial_delay := none }

/-- The timer mutator of `configure_sensor`: only `code` and `period` are
overwritten. -/
def timerMutate : TemplTimer → Timer → Timer :=
  fun timer current => { current with code := timer.code.toCode, period := timer.period }

/-- Model of `TwinReconciler::configure_sensor`: one pass of the template differencer
over the four families.  `now` is the timestamp `Utc::now()` returns when a
synthetic feature is created. -/
def configureSensor (template : ThingTemplate) (now : Nat) (thing : Thing) : Thing :=
  { thing with
    synthetic_state :=
      syncBtreemap template.synthetics thing.synthetic_state (synCreate now) synMutate
    reconciliation :=
      { deleting :=
          syncIndexmap template.reconciliation.deleting thing.reconciliation.deleting
            delCreate delMutate
        changed :=
          syncIndexmap template.reconciliation.changed thing.reconciliation.changed
            chgCreate chgMutate
        timers :=
          syncIndexmap template.reconciliation.timers thing.reconciliation.timers
            timerCreate timerMutate } }

/-- Model of `TwinReconciler::missing`: delete the sensor-facet Thing; `Ok` and a
bare not-found response both yield `Complete`; anything else propagates. -/
def missing (w : World) (cfg : ReconcilerConfig) (device : String) :
    Except ClientError Outcome × List Call :=
  let thing := sensorThing device
  let calls := [Call.deleteThing cfg.application thing]
  match w.deleteThing cfg.application thing with
  | .ok _ => (.ok .Complete, calls)
  | .error (.Response s) =>
    if s = NOT_FOUND then (.ok .Complete, calls) else (.error (.Response s), calls)
  | .error e => (.error e, calls)

/-- Model of `TwinReconciler::removing`: delete the sensor Thing as in `missing`,
then remove the finalizer and write the device back; `Ok` and a bare
not-found response on the write yield `Complete`; anything else propagates. -/
def removing (w : World) (cfg : ReconcilerConfig) (device : Device) :
    Except ClientError Outcome × List Call :=
  match missing w cfg device.metadata.name with
  | (.error e, calls) => (.error e, calls)
  | (.ok _, calls) =>
    let device' : Device := { metadata := removeFinalizer device.metadata FINALIZER }
    let calls := calls ++ [Call.updateDevice device']
    match w.updateDevice device' with
    | .ok _ => (.ok .Complete, calls)
    | .error (.Response s) =>
      if s = NOT_FOUND then (.ok .Complete, calls) else (.error (.Response s), calls)
    | .error e => (.error e, calls)

/-- Model of `TwinReconciler::ensure_device`: fetch the device-facet Thing; absent
means `Retry`; present means stamp the grouping annotation and update it,
with bare not-found/conflict statuses mapped to `Retry`. -/
def ensureDevice (w : World) (cfg : ReconcilerConfig) (device : Device) :
    Except ClientError Outcome × List Call :=
  let name := device.metadata.name
  match w.getThing cfg.application name with
  | .error e => (.error e, [Call.getThing cfg.application name])
  | .ok none => (.ok .Retry, [Call.getThing cfg.application name])
  | .ok (some thing) =>
    let annotations' :=
      btreeInsert "io.drogue/group" "btmesh/eclipsecon2022" thing.metadata.annotations
    let thing' := { thing with metadata := { thing.metadata with annotations := annotations' } }
    let calls := [Call.getThing cfg.application name, Call.updateThing thing']
    match w.updateThing thing' with
    | .ok _ => (.ok .Complete, calls)
    | .error (.Response s) =>
      if s = NOT_FOUND ∨ s = CONFLICT then (.ok .Retry, calls)
      else (.error (.Response s), calls)
    | .error e => (.error e, calls)

/-- Model of `TwinReconciler::ensure_sensor`: fetch the sensor-facet Thing; if
present, apply the differencer and update (conflict in either error variant
and bare not-found map to `Retry`); if absent, build a fresh Thing, apply
the differencer and create it (conflict in either variant maps to `Retry`). -/
def ensureSensor (w : World) (cfg : ReconcilerConfig) (template : ThingTemplate)
    (now : Nat) (device : Device) : Except ClientError Outcome × List Call :=
  let name := sensorThing device.metadata.name
  match w.getThing cfg.application name with
  | .error e => (.error e, [Call.getThing cfg.application name])
  | .ok (some thing) =>
    let thing' := configureSensor template now thing
    let calls := [Call.getThing cfg.application name, Call.updateThing thing']
    match w.updateThing thing' with
    | .ok _ => (.ok .Complete, calls)
    | .error (.Response s) =>
      if s = CONFLICT ∨ s = NOT_FOUND then (.ok .Retry, calls)
      else (.error (.Response s), calls)
    | .error (.Service code err) =>
      if code = CONFLICT then (.ok .Retry, calls)
      else (.error (.Service code err), calls)
    | .error e => (.error e, calls)
  | .ok none =>
    let thing' := configureSensor template now (Thing.new cfg.application name)
    let calls := [Call.getThing cfg.application name, Call.createThing thing']
    match w.createThing thing' with
    | .ok _ => (.ok .Complete, calls)
    | .error (.Response s) =>
      if s = CONFLICT then (.ok .Retry, calls) else (.error (.Response s), calls)
    | .error (.Service code err) =>
      if code = CONFLICT then (.ok .Retry, calls)
      else (.error (.Service code err), calls)
    | .error e => (.error e, calls)

/-- Model of `TwinReconciler::ensure`: if the finalizer is absent, add it and write
the device back (success and conflict in either variant yield `Retry`,
no Thing call is made); otherwise provision the sensor Thing and then the
device-facet Thing. -/
def ensure (w : World) (cfg : ReconcilerConfig) (template : ThingTemplate)
    (now : Nat) (device : Device) : Except ClientError Outcome × List Call :=
  let fin := ensureFinalizer device.metadata FINALIZER
  let device' : Device := { metadata := fin.1 }
  if fin.2 then
    let calls := [Call.updateDevice device']
    match w.updateDevice device' with
    | .ok _ => (.ok .Retry, calls)
    | .error (.Response s) =>
      if s = CONFLICT then (.ok .Retry, calls) else (.error (.Response s), calls)
    | .error (.Service code err) =>
      if code = CONFLICT then (.ok .Retry, calls)
      else (.error (.Service code err), calls)
    | .error e => (.error e, calls)
  else
    match ensureSensor w cfg template now device' with
    | (.error e, calls) => (.error e, calls)
    | (.ok .Retry, calls) => (.ok .Retry, calls)
    | (.ok .Complete, calls) =>
      let r := ensureDevice w cfg device'
      (r.1, calls ++ r.2)

/-- Model of `TwinReconciler::changed` (the `Reconciler` entry point): route to
`removing` when the device fails the selector, then when it is soft-deleted;
otherwise `ensure`. -/
def changed (w : World) (cfg : ReconcilerConfig) (template : ThingTemplate)
    (now : Nat) (device : Device) : Except ClientError Outcome × List Call :=
  if ¬ selMatches cfg device then removing w cfg device
  else if device.metadata.deletion_timestamp.isSome then removing w cfg device
  else ensure w cfg template now device

/-! ### The operator event path (`src/operator.rs`) -/

/-- A decoded structured event: its `type` attribute and extension
attributes. -/
structure Event where
  ty : String
  extensions : List (String × String)
  deriving DecidableEq, Repr

def REGISTRY_TYPE : String := "io.drogue.registry.v1"

/-- The dispatch loop of `Operator::handle_event`: re-fetch the device and
reconcile until `Complete`; `fuel` bounds the number of attempts modelled
(the source loops without bound); `none` means the fuel ran out with the
loop still running. -/
def handleEventLoop (w : World) (app : String) (cfg : ReconcilerConfig)
    (template : ThingTemplate) (now : Nat) :
    Nat → String → Option (Except ClientError Unit) × List Call
  | 0, _ => (none, [])
  | fuel + 1, device =>
    let getCall := Call.getDevice app device
    match w.getDevice app device with
    | .error e => (some (.error e), [getCall])
    | .ok (some d) =>
      match changed w cfg template now d with
      | (.error e, calls) => (some (.error e), getCall :: calls)
      | (.ok .Complete, calls) => (some (.ok ()), getCall :: calls)
      | (.ok .Retry, calls) =>
        let r := handleEventLoop w app cfg template now fuel device
        (r.1, getCall :: calls ++ r.2)
    | .ok none =>
      match missing w cfg device with
      | (.error e, calls) => (some (.error e), getCall :: calls)
      | (.ok .Complete, calls) => (some (.ok ()), getCall :: calls)
      | (.ok .Retry, calls) =>
        let r := handleEventLoop w app cfg template now fuel device
        (r.1, getCall :: calls ++ r.2)

/-- Model of `Operator::handle_event`: ignore events of the wrong type, skip events
without a device extension, otherwise run the dispatch loop. -/
def handleEvent (w : World) (app : String) (cfg : ReconcilerConfig)
    (template : ThingTemplate) (now : Nat) (fuel : Nat) (event : Event) :
    Option (Except ClientError Unit) × List Call :=
  if event.ty ≠ REGISTRY_TYPE then (some (.ok ()), [])
  else
    match aget event.extensions "device" with
    | none => (some (.ok ()), [])
    | some device => handleEventLoop w app cfg template now fuel device

/-! ### Predicates and fixtures used by the claims -/

/-- Map invariant of a template: each of its four definition maps has
pairwise-distinct keys (always true of the loaded IndexMaps). -/
def TemplateWF (t : ThingTemplate) : Prop :=
  NodupKeys t.synthetics ∧ NodupKeys t.reconciliation.changed ∧
  NodupKeys t.reconciliation.deleting ∧ NodupKeys t.reconciliation.timers

/-- Map invariant of a Thing: each of its four managed maps has
pairwise-distinct keys (always true of BTreeMap / IndexMap contents). -/
def ThingWF (t : Thing) : Prop :=
  NodupKeys t.synthetic_state ∧ NodupKeys t.reconciliation.changed ∧
  NodupKeys t.reconciliation.deleting ∧ NodupKeys t.reconciliation.timers

instance (t : ThingTemplate) : Decidable (TemplateWF t) := by
  unfold TemplateWF; infer_instance

instance (t : Thing) : Decidable (ThingWF t) := by
  unfold ThingWF; infer_instance

/-- Is this call a registry write? -/
def isRegistryWrite : Call → Bool
  | .updateDevice _ => true
  | _ => false

/-- Is this error a conflict, in either of the two variants the reconciler
inspects? -/
def isConflict : ClientError → Bool
  | .Response s => s == CONFLICT
  | .Service code _ => code == CONFLICT
  | _ => false

/-- The device with the finalizer ensured (as written back by `ensure`). -/
def withFinalizer (device : Device) : Device :=
  { metadata := (ensureFinalizer device.metadata FINALIZER).1 }

/-- Fixture: a small template covering all four families. -/
def sampleTemplate : ThingTemplate where
  reconciliation :=
    { changed := [("log", .javaScript "chg()")]
      deleting := [("cleanup", .javaScript "del()")]
      timers := [("tick", { code := .javaScript "tick()", period := 30 })] }
  synthetics := [("temperature", .javaScript "syn()")]

/-- Fixture: a Thing with one stale synthetic entry and one surviving
changed-handler entry carrying runtime state. -/
def sampleThing : Thing where
  metadata := { application := "app", name := "dev1/sensor", annotations := [], labels := [] }
  reported_state := []
  desired_state := []
  synthetic_state := [("old", { type := .alias_ "x", value := .num 3, last_update := 5 })]
  reconciliation :=
    { changed := [("log", { code := .javaScript "oldChg()", last_log := ["entry"] })]
      deleting := []
      timers := [] }

/-- Fixture: a device matching the sample selector, without the finalizer. -/
def sampleDevice : Device where
  metadata :=
    { application := "app", name := "dev1", labels := [("role", "sensor")],
      deletion_timestamp := none, finalizers := [] }

/-- Fixture: a device carrying no labels (it fails the sample selector) but
already carrying the finalizer. -/
def plainDevice : Device where
  metadata :=
    { application := "app", name := "dev1", labels := [],
      deletion_timestamp := none, finalizers := ["twin"] }

/-- Fixture: the sample reconciler configuration. -/
def sampleCfg : ReconcilerConfig where
  application := "app"
  label_selector := [("role", "sensor")]

/-- Fixture: a world in which every external call succeeds. -/
def okWorld : World where
  deleteThing := fun _ _ => .ok true
  getThing := fun _ _ => .ok none
  createThing := fun _ => .ok ()
  updateThing := fun _ => .ok ()
  updateDevice := fun _ => .ok ()
  getDevice := fun _ _ => .ok none

/-- Fixture: a world whose registry write always reports a conflict. -/
def conflictRegistryWorld : World :=
  { okWorld with updateDevice := fun _ => .error (.Response CONFLICT) }

/-- Fixture: a world whose Thing update fails with a service-carried
not-found error while the sensor Thing exists. -/
def serviceNotFoundWorld : World :=
  { okWorld with
    getThing := fun _ _ => .ok (some sampleThing)
    updateThing := fun _ => .error (.Service NOT_FOUND "nf") }

/-- Fixture (ordering counterexample): a template whose changed-handler map
keeps keys a, c, d. -/
def orderTemplate : ThingTemplate where
  reconciliation :=
    { changed := [("a", .javaScript "A"), ("c", .javaScript "C"), ("d", .javaScript "D")]
      deleting := []
      timers := [] }
  synthetics := []

/-- Fixture (ordering counterexample): a Thing whose changed-handler map
holds keys a, b, c, d in that insertion order. -/
def orderThing : Thing where
  metadata := { application := "app", name := "dev1/sensor", annotations := [], labels := [] }
  reported_state := []
  desired_state := []
  synthetic_state := []
  reconciliation :=
    { changed :=
        [("a", { code := .javaScript "oa", last_log := [] }),
         ("b", { code := .javaScript "ob", last_log := [] }),
         ("c", { code := .javaScript "oc", last_log := [] }),
         ("d", { code := .javaScript "od", last_log := [] })]
      deleting := []
      timers := [] }

/-- Fixture: a sample event of the registry-changed type carrying a device
extension. -/
def sampleEvent : Event where
  ty := "io.drogue.registry.v1"
  extensions := [("device", "dev1")]

/-- Fixture: an event of an unrelated type. -/
def otherEvent : Event where
  ty := "io.drogue.other.v1"
  extensions := []

/-- Fixture: a registry-changed event with no device extension. -/
def noDeviceEvent : Event where
  ty := "io.drogue.registry.v1"
  extensions := [("sender", "x")]

/-- Fixture (ordering witness): an insertion-ordered changed-handler map
whose keys all occur in the ordering template. -/
def orderTarget : List (String × Changed) :=
  [("a", { code := .javaScript "oa", last_log := ["x"] }),
   ("c", { code := .javaScript "oc", last_log := [] })]

/-- Fixture: a world whose Thing update fails with a plain not-found status
while the sensor Thing exists. -/
def notFoundThingWorld : World :=
  { okWorld with
    getThing := fun _ _ => .ok (some sampleThing)
    updateThing := fun _ => .error (.Response NOT_FOUND) }

/-! ### Lookup lemmas for the association-list primitives -/

section Lemmas

variable {α : Type} {T R : Type}

theorem aget_cons (p : String × α) (l : List (String × α)) (k : String) :
    aget (p :: l) k = if p.1 = k then some p.2 else aget l k := rfl

theorem akeys_cons (p : String × α) (l : List (String × α)) :
    akeys (p :: l) = p.1 :: akeys l := rfl

theorem akeys_append (l l' : List (String × α)) :
    akeys (l ++ l') = akeys l ++ akeys l' := List.map_append _ _ _

theorem aget_append_left {l : List (String × α)} {k : String} {v : α}
    (h : aget l k = some v) (l' : List (String × α)) : aget (l ++ l') k = some v := by
  induction l with
  | nil => simp [aget] at h
  | cons p t ih =>
    rw [aget_cons] at h
    rw [List.cons_append, aget_cons]
    by_cases hp : p.1 = k
    · rwa [if_pos hp] at h ⊢
    · rw [if_neg hp] at h ⊢
      exact ih h

theorem aget_append_right {l : List (String × α)} {k : String}
    (h : aget l k = none) (l' : List (String × α)) : aget (l ++ l') k = aget l' k := by
  induction l with
  | nil => rfl
  | cons p t ih =>
    rw [aget_cons] at h
    rw [List.cons_append, aget_cons]
    by_cases hp : p.1 = k
    · rw [if_pos hp] at h; cases h
    · rw [if_neg hp] at h ⊢
      exact ih h

theorem aget_eq_none_iff {l : List (String × α)} {k : String} :
    aget l k = none ↔ k ∉ akeys l := by
  induction l with
  | nil => simp [aget, akeys]
  | cons p t ih =>
    rw [aget_cons, akeys_cons]
    by_cases h : p.1 = k
    · simp [h]
    · rw [if_neg h, ih]
      constructor
      · intro hk hm
        rcases List.mem_cons.mp hm with he | hm2
        · exact h he.symm
        · exact hk hm2
      · intro hk hm
        exact hk (List.mem_cons_of_mem _ hm)

theorem mem_akeys_of_aget {l : List (String × α)} {k : String} {v : α}
    (h : aget l k = some v) : k ∈ akeys l := by
  by_contra hk
  rw [← aget_eq_none_iff] at hk
  simp [hk] at h

theorem aget_of_mem_of_nodup {l : List (String × α)} {p : String × α}
    (hn : NodupKeys l) (hp : p ∈ l) : aget l p.1 = some p.2 := by
  induction l with
  | nil => cases hp
  | cons q t ih =>
    simp only [NodupKeys, akeys_cons, List.nodup_cons] at hn
    rw [aget_cons]
    rcases List.mem_cons.mp hp with h | h
    · subst h; simp
    · have hq : q.1 ≠ p.1 := by
        intro he
        exact hn.1 (he ▸ List.mem_map_of_mem Prod.fst h)
      rw [if_neg hq]
      exact ih hn.2 h

/-! #### mutateAt -/

theorem akeys_mutateAt (k : String) (f : α → α) (l : List (String × α)) :
    akeys (mutateAt k f l) = akeys l := by
  induction l with
  | nil => rfl
  | cons p t ih =>
    simp only [mutateAt, List.map_cons, akeys_cons] at *
    split <;> simp [akeys_cons, ih]

theorem aget_mutateAt_self (k : String) (f : α → α) (l : List (String × α)) :
    aget (mutateAt k f l) k = (aget l k).map f := by
  induction l with
  | nil => rfl
  | cons p t ih =>
    simp only [mutateAt, List.map_cons] at *
    by_cases h : p.1 = k
    · simp [aget_cons, h]
    · simp only [if_neg h, aget_cons, ih]

theorem aget_mutateAt_ne {x k : String} (hx : x ≠ k) (f : α → α) (l : List (String × α)) :
    aget (mutateAt k f l) x = aget l x := by
  induction l with
  | nil => rfl
  | cons p t ih =>
    simp only [mutateAt, List.map_cons]
    by_cases h : p.1 = k
    · rw [if_pos h, aget_cons, aget_cons]
      have hpx : ¬ p.1 = x := fun he => hx (he.symm.trans h)
      rw [if_neg hpx, if_neg hpx]
      exact ih
    · rw [if_neg h, aget_cons, aget_cons]
      by_cases h2 : p.1 = x
      · rw [if_pos h2, if_pos h2]
      · rw [if_neg h2, if_neg h2]
        exact ih

theorem mutateAt_eq_self {k : String} {f : α → α} {l : List (String × α)}
    (h : ∀ p ∈ l, p.1 = k → f p.2 = p.2) : mutateAt k f l = l := by
  induction l with
  | nil => rfl
  | cons p t ih =>
    simp only [mutateAt, List.map_cons]
    have ht : mutateAt k f t = t := ih fun q hq => h q (List.mem_cons_of_mem _ hq)
    rw [mutateAt] at ht
    by_cases hp : p.1 = k
    · rw [if_pos hp, h p (List.mem_cons_self _ _) hp, ht]
    · rw [if_neg hp, ht]

/-! #### btreeInsert -/

theorem aget_btreeInsert (k : String) (v : α) (l : List (String × α)) (x : String) :
    aget (btreeInsert k v l) x = if k = x then some v else aget l x := by
  induction l with
  | nil => rfl
  | cons p t ih =>
    rw [btreeInsert]
    by_cases h1 : k < p.1
    · rw [if_pos h1, aget_cons]
    · rw [if_neg h1]
      by_cases h2 : k = p.1
      · rw [if_pos h2, aget_cons, aget_cons]
        by_cases h : k = x
        · rw [if_pos h, if_pos h]
        · have hpx : ¬ p.1 = x := fun he => h (h2.trans he)
          rw [if_neg h, if_neg h, if_neg hpx]
      · rw [if_neg h2, aget_cons, aget_cons, ih]
        by_cases hpx : p.1 = x
        · have hkx : ¬ k = x := fun he => h2 (he.trans hpx.symm)
          rw [if_pos hpx, if_neg hkx, if_pos hpx]
        · rw [if_neg hpx, if_neg hpx]

theorem akeys_btreeInsert_perm {k : String} {l : List (String × α)}
    (h : k ∉ akeys l) (v : α) : (akeys (btreeInsert k v l)).Perm (k :: akeys l) := by
  induction l with
  | nil => exact List.Perm.refl _
  | cons p t ih =>
    rw [akeys_cons] at h
    have hk1 : k ≠ p.1 := fun he => h (he ▸ List.mem_cons_self _ _)
    have hk2 : k ∉ akeys t := fun hm => h (List.mem_cons_of_mem _ hm)
    rw [btreeInsert]
    by_cases h1 : k < p.1
    · rw [if_pos h1]
      exact List.Perm.refl _
    · rw [if_neg h1, if_neg hk1, akeys_cons, akeys_cons]
      exact ((ih hk2).cons p.1).trans (List.Perm.swap k p.1 (akeys t))

theorem nodupKeys_btreeInsert {k : String} {l : List (String × α)}
    (hn : NodupKeys l) (h : k ∉ akeys l) (v : α) : NodupKeys (btreeInsert k v l) := by
  rw [NodupKeys]
  exact ((akeys_btreeInsert_perm h v).nodup_iff).mpr (List.nodup_cons.mpr ⟨h, hn⟩)

/-! #### eraseKey -/

theorem aget_eraseKey {l : List (String × α)} (hn : NodupKeys l) (k x : String) :
    aget (eraseKey k l) x = if x = k then none else aget l x := by
  induction l with
  | nil => simp [eraseKey, aget]
  | cons p t ih =>
    simp only [NodupKeys, akeys_cons, List.nodup_cons] at hn
    rw [eraseKey]
    by_cases h1 : p.1 = k
    · rw [if_pos h1]
      by_cases h : x = k
      · rw [if_pos h, aget_eq_none_iff]
        intro hm
        exact hn.1 (by rw [h1, ← h]; exact hm)
      · have hpx : ¬ p.1 = x := fun he => h ((he.symm.trans h1))
        rw [if_neg h, aget_cons, if_neg hpx]
    · rw [if_neg h1, aget_cons, aget_cons, ih hn.2]
      by_cases h : p.1 = x
      · have hxk : ¬ x = k := fun he => h1 (h.trans he)
        rw [if_pos h, if_neg hxk, if_pos h]
      · rw [if_neg h, if_neg h]

theorem akeys_eraseKey_sublist (k : String) (l : List (String × α)) :
    (akeys (eraseKey k l)).Sublist (akeys l) := by
  induction l with
  | nil => exact List.Sublist.refl _
  | cons p t ih =>
    rw [eraseKey]
    by_cases h : p.1 = k
    · rw [if_pos h, akeys_cons]
      exact List.sublist_cons_self _ _
    · rw [if_neg h, akeys_cons, akeys_cons]
      exact ih.cons₂ p.1

theorem nodupKeys_eraseKey {l : List (String × α)} (hn : NodupKeys l) (k : String) :
    NodupKeys (eraseKey k l) :=
  List.Nodup.sublist (akeys_eraseKey_sublist k l) hn

/-! #### splitAtKey and swapRemove -/

theorem not_mem_akeys_of_forall {l : List (String × α)} {k : String}
    (h : ∀ p ∈ l, p.1 ≠ k) : k ∉ akeys l := fun hm => by
  obtain ⟨p, hp, he⟩ := List.mem_map.mp hm
  exact h p hp he

theorem splitAtKey_none {k : String} {l pre : List (String × α)}
    (h : splitAtKey k l = (pre, none)) : pre = l ∧ ∀ p ∈ l, p.1 ≠ k := by
  induction l generalizing pre with
  | nil =>
    rw [splitAtKey] at h
    refine ⟨(congrArg Prod.fst h).symm, ?_⟩
    intro p hp; cases hp
  | cons p t ih =>
    rw [splitAtKey] at h
    by_cases hp : p.1 = k
    · rw [if_pos hp] at h
      exact absurd (congrArg Prod.snd h) (by simp)
    · rw [if_neg hp] at h
      rcases hs : splitAtKey k t with ⟨pre2, o⟩
      rw [hs] at h
      have h1 : p :: pre2 = pre := congrArg Prod.fst h
      have h2 : o = none := congrArg Prod.snd h
      subst h2
      obtain ⟨he, hall⟩ := ih hs
      subst he
      refine ⟨h1.symm, ?_⟩
      intro q hq
      rcases List.mem_cons.mp hq with rfl | hq2
      · exact hp
      · exact hall q hq2

theorem splitAtKey_some {k : String} {l pre post : List (String × α)}
    (h : splitAtKey k l = (pre, some post)) :
    (∀ p ∈ pre, p.1 ≠ k) ∧ ∃ v, l = pre ++ (k, v) :: post := by
  induction l generalizing pre post with
  | nil =>
    rw [splitAtKey] at h
    exact absurd (congrArg Prod.snd h) (by simp)
  | cons p t ih =>
    rw [splitAtKey] at h
    by_cases hp : p.1 = k
    · rw [if_pos hp] at h
      have h1 : ([] : List (String × α)) = pre := congrArg Prod.fst h
      have h2 : some t = some post := congrArg Prod.snd h
      have h3 : t = post := by injection h2
      refine ⟨?_, p.2, ?_⟩
      · intro q hq; rw [← h1] at hq; cases hq
      · rw [← h1, ← h3, List.nil_append, ← hp]
    · rw [if_neg hp] at h
      rcases hs : splitAtKey k t with ⟨pre2, o⟩
      rw [hs] at h
      have h1 : p :: pre2 = pre := congrArg Prod.fst h
      have h2 : o = some post := congrArg Prod.snd h
      subst h2
      obtain ⟨hpre2, v, ht⟩ := ih hs
      refine ⟨?_, v, ?_⟩
      · intro q hq
        rw [← h1] at hq
        rcases List.mem_cons.mp hq with rfl | hq2
        · exact hp
        · exact hpre2 q hq2
      · rw [← h1, ht, List.cons_append]

theorem aget_getLast_cons_dropLast {post : List (String × α)} {last : String × α}
    (hn : NodupKeys post) (h : post.getLast? = some last) (x : String) :
    aget (last :: post.dropLast) x = aget post x := by
  have hne : post ≠ [] := by
    intro he
    rw [he] at h
    cases h
  have hpost : post.dropLast ++ [last] = post := List.dropLast_append_getLast? last h
  have hn' : (akeys post.dropLast ++ [last.1]).Nodup := by
    have : akeys (post.dropLast ++ [last]) = akeys post.dropLast ++ [last.1] := by
      rw [akeys_append]; rfl
    rw [← this, hpost]
    exact hn
  have hnotm : last.1 ∉ akeys post.dropLast :=
    (List.nodup_cons.mp ((List.perm_append_singleton _ _).nodup hn')).1
  conv_rhs => rw [← hpost]
  by_cases hlx : last.1 = x
  · rw [aget_cons, if_pos hlx,
      aget_append_right (aget_eq_none_iff.mpr (hlx ▸ hnotm)), aget_cons, if_pos hlx]
  · rw [aget_cons, if_neg hlx]
    cases hx : aget post.dropLast x with
    | some w => rw [aget_append_left hx]
    | none =>
      rw [aget_append_right hx, aget_cons, if_neg hlx]
      rfl

theorem aget_swapRemove {l : List (String × α)} (hn : NodupKeys l) (k x : String) :
    aget (swapRemove k l) x = if x = k then none else aget l x := by
  rcases hs : splitAtKey k l with ⟨pre, o⟩
  cases o with
  | none =>
    obtain ⟨-, hall⟩ := splitAtKey_none hs
    simp only [swapRemove, hs]
    by_cases h : x = k
    · rw [if_pos h, aget_eq_none_iff, h]
      exact not_mem_akeys_of_forall hall
    · rw [if_neg h]
  | some post =>
    obtain ⟨hpre, v, hl⟩ := splitAtKey_some hs
    have hknpre : k ∉ akeys pre := not_mem_akeys_of_forall hpre
    subst hl
    have hnparts : (akeys pre).Nodup ∧ k ∉ akeys post ∧ (akeys post).Nodup ∧
        (akeys pre).Disjoint (k :: akeys post) := by
      have := hn
      simp only [NodupKeys, akeys_append, akeys_cons] at this
      obtain ⟨h1, h2, h3⟩ := List.nodup_append.mp this
      exact ⟨h1, (List.nodup_cons.mp h2).1, (List.nodup_cons.mp h2).2, h3⟩
    obtain ⟨hnpre, hknpost, hnpost, hdisj⟩ := hnparts
    simp only [swapRemove, hs]
    cases hgl : post.getLast? with
    | none =>
      have hpe : post = [] := List.getLast?_eq_none_iff.mp hgl
      subst hpe
      by_cases h : x = k
      · rw [if_pos h, aget_eq_none_iff, h]
        exact hknpre
      · rw [if_neg h]
        cases hx : aget pre x with
        | some w => rw [aget_append_left hx]
        | none =>
          rw [aget_append_right hx, aget_cons, if_neg (fun he : k = x => h he.symm)]
          rfl
    | some last =>
      have hlast : last ∈ post := by
        have hne : post ≠ [] := by
          intro he; rw [he] at hgl; cases hgl
        have := List.dropLast_append_getLast? last hgl
        rw [← this]
        exact List.mem_append_right _ (List.mem_singleton_self _)
      by_cases h : x = k
      · rw [if_pos h, aget_eq_none_iff, h]
        rw [akeys_append, akeys_cons]
        intro hm
        rcases List.mem_append.mp hm with hm1 | hm2
        · exact hknpre hm1
        · rcases List.mem_cons.mp hm2 with he | hm3
          · exact hknpost (he ▸ List.mem_map_of_mem Prod.fst hlast)
          · exact hknpost
              ((List.Sublist.map Prod.fst (List.dropLast_sublist post)).mem hm3)
      · rw [if_neg h]
        cases hx : aget pre x with
        | some w => rw [aget_append_left hx, aget_append_left hx]
        | none =>
          rw [aget_append_right hx, aget_append_right hx,
            aget_cons (k, v) post x, if_neg (fun he : k = x => h he.symm)]
          exact aget_getLast_cons_dropLast hnpost hgl x

theorem nodupKeys_swapRemove {l : List (String × α)} (hn : NodupKeys l) (k : String) :
    NodupKeys (swapRemove k l) := by
  rcases hs : splitAtKey k l with ⟨pre, o⟩
  cases o with
  | none => simp only [swapRemove, hs]; exact hn
  | some post =>
    obtain ⟨hpre, v, hl⟩ := splitAtKey_some hs
    subst hl
    have hsub : (akeys (pre ++ post)).Sublist (akeys (pre ++ (k, v) :: post)) := by
      rw [akeys_append, akeys_append, akeys_cons]
      exact (List.sublist_cons_self k (akeys post)).append_left (akeys pre)
    have hnpp : (akeys (pre ++ post)).Nodup := List.Nodup.sublist hsub hn
    simp only [swapRemove, hs]
    cases hgl : post.getLast? with
    | none =>
      have hpe : post = [] := List.getLast?_eq_none_iff.mp hgl
      subst hpe
      rw [NodupKeys]
      rw [List.append_nil] at hnpp
      exact hnpp
    | some last =>
      have hpost : post.dropLast ++ [last] = post := List.dropLast_append_getLast? last hgl
      have hperm : (akeys (pre ++ last :: post.dropLast)).Perm (akeys (pre ++ post)) := by
        rw [akeys_append, akeys_append]
        refine List.Perm.append_left (akeys pre) ?_
        have : akeys (last :: post.dropLast) = last.1 :: akeys post.dropLast := rfl
        rw [this]
        have h2 : (akeys post.dropLast ++ [last.1]).Perm (last.1 :: akeys post.dropLast) :=
          List.perm_append_singleton _ _
        have h3 : akeys post.dropLast ++ [last.1] = akeys post := by
          have := congrArg akeys hpost
          rw [akeys_append] at this
          exact this
        rw [← h3]
        exact h2.symm
      rw [NodupKeys]
      exact hperm.symm.nodup hnpp

/-! #### Folded removal passes -/

theorem aget_foldl_swapRemove {l : List (String × α)} (S : List String)
    (hn : NodupKeys l) (x : String) :
    aget (S.foldl (fun acc k => swapRemove k acc) l) x =
      if x ∈ S then none else aget l x := by
  induction S generalizing l with
  | nil => simp
  | cons k S ih =>
    rw [List.foldl_cons, ih (nodupKeys_swapRemove hn k), aget_swapRemove hn k x]
    by_cases h1 : x ∈ S
    · simp [h1]
    · by_cases h2 : x = k <;> simp [h1, h2]

theorem nodupKeys_foldl_swapRemove {l : List (String × α)} (S : List String)
    (hn : NodupKeys l) :
    NodupKeys (S.foldl (fun acc k => swapRemove k acc) l) := by
  induction S generalizing l with
  | nil => exact hn
  | cons k S ih => exact ih (nodupKeys_swapRemove hn k)

theorem aget_foldl_eraseKey {l : List (String × α)} (S : List String)
    (hn : NodupKeys l) (x : String) :
    aget (S.foldl (fun acc k => eraseKey k acc) l) x =
      if x ∈ S then none else aget l x := by
  induction S generalizing l with
  | nil => simp
  | cons k S ih =>
    rw [List.foldl_cons, ih (nodupKeys_eraseKey hn k), aget_eraseKey hn k x]
    by_cases h1 : x ∈ S
    · simp [h1]
    · by_cases h2 : x = k <;> simp [h1, h2]

theorem nodupKeys_foldl_eraseKey {l : List (String × α)} (S : List String)
    (hn : NodupKeys l) :
    NodupKeys (S.foldl (fun acc k => eraseKey k acc) l) := by
  induction S generalizing l with
  | nil => exact hn
  | cons k S ih => exact ih (nodupKeys_eraseKey hn k)

/-! #### The structure of the config pass -/

theorem applyMut_cons_of_ne {config : List (String × T)} {m : T → R → R}
    {p0 : String × T} {q : String × R} (h : ¬ p0.1 = q.1) :
    applyMut (p0 :: config) m q = applyMut config m q := by
  simp only [applyMut, aget_cons, if_neg h]

theorem applyMut_fst (config : List (String × T)) (m : T → R → R) (q : String × R) :
    (applyMut config m q).1 = q.1 := by
  unfold applyMut
  cases aget config q.1 <;> rfl

theorem syncPhase1_structure {T R : Type} {c : T → R} {m : T → R → R} :
    ∀ config : List (String × T), NodupKeys config → ∀ target : List (String × R),
      syncPhase1 config target c m =
        target.map (applyMut config m) ++ createdOf config target c := by
  intro config
  induction config with
  | nil =>
    intro _ target
    show target = target.map (applyMut [] m) ++ createdOf [] target c
    have h2 : target.map (applyMut ([] : List (String × T)) m) = target := by
      conv_rhs => rw [← List.map_id target]
      exact List.map_congr_left fun p _ => rfl
    rw [h2, show createdOf ([] : List (String × T)) target c = [] from rfl,
      List.append_nil]
  | cons p0 rest ih =>
    intro hc target
    have hc' : NodupKeys rest := by
      simp only [NodupKeys, akeys_cons, List.nodup_cons] at hc
      exact hc.2
    have hk0 : p0.1 ∉ akeys rest := by
      simp only [NodupKeys, akeys_cons, List.nodup_cons] at hc
      exact hc.1
    have hk0' : aget rest p0.1 = none := aget_eq_none_iff.mpr hk0
    show syncPhase1 rest (syncStep c m target p0) c m = _
    rw [ih hc' (syncStep c m target p0)]
    cases hocc : aget target p0.1 with
    | some r0 =>
      have hstep : syncStep c m target p0 = mutateAt p0.1 (m p0.2) target := by
        unfold syncStep
        rw [hocc]
      rw [hstep]
      have hA : (mutateAt p0.1 (m p0.2) target).map (applyMut rest m) =
          target.map (applyMut (p0 :: rest) m) := by
        unfold mutateAt
        rw [List.map_map]
        refine List.map_congr_left fun q _ => ?_
        simp only [Function.comp]
        by_cases hq : q.1 = p0.1
        · rw [if_pos hq]
          have h1 : applyMut rest m (q.1, m p0.2 q.2) = (q.1, m p0.2 q.2) := by
            unfold applyMut
            show (match aget rest q.1 with
              | some t => (q.1, m t (m p0.2 q.2)) | none => (q.1, m p0.2 q.2)) = _
            rw [hq, hk0']
          have h2 : applyMut (p0 :: rest) m q = (q.1, m p0.2 q.2) := by
            unfold applyMut
            rw [aget_cons, if_pos hq.symm]
          rw [h1, h2]
        · rw [if_neg hq]
          exact (applyMut_cons_of_ne fun he => hq he.symm).symm
      have hB : createdOf rest (mutateAt p0.1 (m p0.2) target) c =
          createdOf (p0 :: rest) target c := by
        have h1 : createdOf (p0 :: rest) target c = createdOf rest target c := by
          unfold createdOf
          rw [List.filter_cons,
            if_neg (show ¬ (aget target p0.1).isNone = true by rw [hocc]; simp)]
        rw [h1]
        unfold createdOf
        refine congrArg _ (List.filter_congr fun p _ => ?_)
        by_cases hp : p.1 = p0.1
        · rw [hp, aget_mutateAt_self, hocc]
          rfl
        · rw [aget_mutateAt_ne hp]
      rw [hA, hB]

    | none =>
      have hstep : syncStep c m target p0 = target ++ [(p0.1, c p0.2)] := by
        unfold syncStep
        rw [hocc]
      rw [hstep, List.map_append]
      have he0 : applyMut rest m (p0.1, c p0.2) = (p0.1, c p0.2) := by
        unfold applyMut
        show (match aget rest p0.1 with
          | some t => (p0.1, m t (c p0.2)) | none => (p0.1, c p0.2)) = _
        rw [hk0']
      have hA : target.map (applyMut rest m) = target.map (applyMut (p0 :: rest) m) := by
        refine List.map_congr_left fun q hq => ?_
        have hqk : q.1 ∈ akeys target := List.mem_map_of_mem Prod.fst hq
        have hne : ¬ p0.1 = q.1 := fun he =>
          (aget_eq_none_iff.mp hocc) (he ▸ hqk)
        exact (applyMut_cons_of_ne hne).symm
      have hB : createdOf rest (target ++ [(p0.1, c p0.2)]) c = createdOf rest target c := by
        unfold createdOf
        refine congrArg _ (List.filter_congr fun p hp => ?_)
        have hpk : p.1 ∈ akeys rest := List.mem_map_of_mem Prod.fst hp
        have hne : ¬ p0.1 = p.1 := fun he => hk0 (he ▸ hpk)
        cases hx : aget target p.1 with
        | some w => rw [aget_append_left hx]
        | none =>
          rw [aget_append_right hx, aget_cons, if_neg hne]
          rfl
      have hC : createdOf (p0 :: rest) target c =
          (p0.1, c p0.2) :: createdOf rest target c := by
        unfold createdOf
        rw [List.filter_cons,
          if_pos (show (aget target p0.1).isNone = true by rw [hocc]; rfl), List.map_cons]
      rw [List.map_cons, List.map_nil, he0, hA, hB, hC, List.append_assoc]
      rfl

theorem akeys_map_applyMut (config : List (String × T)) (m : T → R → R)
    (l : List (String × R)) : akeys (l.map (applyMut config m)) = akeys l := by
  induction l with
  | nil => rfl
  | cons q t ih =>
    rw [List.map_cons, akeys_cons, akeys_cons, applyMut_fst, ih]

theorem aget_map_applyMut (config : List (String × T)) (m : T → R → R)
    (l : List (String × R)) (x : String) :
    aget (l.map (applyMut config m)) x =
      (aget l x).map fun r =>
        match aget config x with
        | some t => m t r
        | none => r := by
  induction l with
  | nil => rfl
  | cons q t ih =>
    rw [List.map_cons]
    by_cases hq : q.1 = x
    · rw [aget_cons, applyMut_fst, if_pos hq, aget_cons, if_pos hq]
      unfold applyMut
      rw [hq]
      cases aget config x <;> rfl
    · rw [aget_cons, applyMut_fst, if_neg hq, aget_cons, if_neg hq]
      exact ih

theorem akeys_createdOf (config : List (String × T)) (target : List (String × R))
    (c : T → R) :
    akeys (createdOf config target c) =
      (config.filter fun p => (aget target p.1).isNone).map Prod.fst := by
  unfold createdOf akeys
  rw [List.map_map]
  rfl

theorem aget_createdOf {config : List (String × T)} (hc : NodupKeys config)
    (target : List (String × R)) (c : T → R) (x : String) :
    aget (createdOf config target c) x =
      match aget config x with
      | some t => if (aget target x).isNone then some (c t) else none
      | none => none := by
  induction config with
  | nil => rfl
  | cons p0 rest ih =>
    have hc' : NodupKeys rest := by
      simp only [NodupKeys, akeys_cons, List.nodup_cons] at hc
      exact hc.2
    have hk0 : p0.1 ∉ akeys rest := by
      simp only [NodupKeys, akeys_cons, List.nodup_cons] at hc
      exact hc.1
    unfold createdOf
    rw [List.filter_cons]
    cases hocc : aget target p0.1 with
    | none =>
      rw [if_pos (show (none : Option R).isNone = true from rfl),
        List.map_cons, aget_cons]
      by_cases hx : p0.1 = x
      · rw [if_pos hx, aget_cons, if_pos hx, ← hx, hocc]
        rfl
      · rw [if_neg hx, aget_cons, if_neg hx]
        exact ih hc'
    | some r0 =>
      rw [if_neg (show ¬ (some r0 : Option R).isNone = true by simp)]
      rw [show ((rest.filter fun p => (aget target p.1).isNone).map
          fun p => (p.1, c p.2)) = createdOf rest target c from rfl, ih hc']
      rw [aget_cons]
      by_cases hx : p0.1 = x
      · rw [if_pos hx]
        have hrx : aget rest x = none := aget_eq_none_iff.mpr (hx ▸ hk0)
        rw [hrx, ← hx, hocc]
        rfl
      · rw [if_neg hx]

theorem nodupKeys_syncPhase1 {config : List (String × T)} {target : List (String × R)}
    (hc : NodupKeys config) (ht : NodupKeys target) (c : T → R) (m : T → R → R) :
    NodupKeys (syncPhase1 config target c m) := by
  rw [NodupKeys, syncPhase1_structure config hc target, akeys_append, List.nodup_append,
    akeys_map_applyMut, akeys_createdOf]
  refine ⟨ht, ?_, ?_⟩
  · exact List.Nodup.sublist ((List.filter_sublist config).map Prod.fst) hc
  · intro x hx hx2
    obtain ⟨p, hp, he⟩ := List.mem_map.mp hx2
    have := (List.mem_filter.mp hp).2
    have hnone : aget target p.1 = none := by
      cases h : aget target p.1
      · rfl
      · rw [h] at this; cases this
    exact (aget_eq_none_iff.mp hnone) (he ▸ hx)

theorem aget_syncIndexmap {config : List (String × T)} {target : List (String × R)}
    (hc : NodupKeys config) (ht : NodupKeys target) (c : T → R) (m : T → R → R)
    (x : String) :
    aget (syncIndexmap config target c m) x =
      match aget config x with
      | none => none
      | some t =>
        match aget target x with
        | some r => some (m t r)
        | none => some (c t) := by
  show aget ((staleKeys config target).foldl (fun acc k => swapRemove k acc)
    (syncPhase1 config target c m)) x = _
  rw [aget_foldl_swapRemove _ (nodupKeys_syncPhase1 hc ht c m) x]
  by_cases hstale : x ∈ staleKeys config target
  · rw [if_pos hstale]
    have h2 := (List.mem_filter.mp hstale).2
    have hcx : aget config x = none := by
      cases h : aget config x
      · rfl
      · rw [h] at h2; cases h2
    rw [hcx]
  · rw [if_neg hstale, syncPhase1_structure config hc target]
    cases hcx : aget config x with
    | none =>
      have hxt : x ∉ akeys target := fun hm =>
        hstale (List.mem_filter.mpr ⟨hm, by rw [hcx]; rfl⟩)
      have htx : aget target x = none := aget_eq_none_iff.mpr hxt
      have h1 : aget (target.map (applyMut config m)) x = none := by
        rw [aget_map_applyMut, htx]
        rfl
      rw [aget_append_right h1, aget_createdOf hc target c x, hcx]
    | some t =>
      cases htx : aget target x with
      | some r =>
        have h1 : aget (target.map (applyMut config m)) x = some (m t r) := by
          rw [aget_map_applyMut, htx, hcx]
          rfl
        rw [aget_append_left h1]
      | none =>
        have h1 : aget (target.map (applyMut config m)) x = none := by
          rw [aget_map_applyMut, htx]
          rfl
        rw [aget_append_right h1, aget_createdOf hc target c x, hcx, htx]
        rfl

theorem nodupKeys_syncIndexmap {config : List (String × T)} {target : List (String × R)}
    (hc : NodupKeys config) (ht : NodupKeys target) (c : T → R) (m : T → R → R) :
    NodupKeys (syncIndexmap config target c m) :=
  nodupKeys_foldl_swapRemove _ (nodupKeys_syncPhase1 hc ht c m)

/-! #### The btreemap sync -/

theorem aget_syncBtreePhase1 {T R : Type} {c : T → R} {m : T → R → R} :
    ∀ config : List (String × T), NodupKeys config → ∀ target : List (String × R),
      ∀ x : String,
      aget (syncBtreePhase1 config target c m) x =
        match aget config x with
        | some t =>
          match aget target x with
          | some r => some (m t r)
          | none => some (c t)
        | none => aget target x := by
  intro config
  induction config with
  | nil => intro _ target x; rfl
  | cons p0 rest ih =>
    intro hc target x
    have hc' : NodupKeys rest := by
      simp only [NodupKeys, akeys_cons, List.nodup_cons] at hc
      exact hc.2
    have hk0 : p0.1 ∉ akeys rest := by
      simp only [NodupKeys, akeys_cons, List.nodup_cons] at hc
      exact hc.1
    have hk0' : aget rest p0.1 = none := aget_eq_none_iff.mpr hk0
    by_cases hx : x = p0.1
    · have hL : aget (syncBtreePhase1 (p0 :: rest) target c m) x =
          aget (syncBtreeStep c m target p0) x := by
        rw [show syncBtreePhase1 (p0 :: rest) target c m =
          syncBtreePhase1 rest (syncBtreeStep c m target p0) c m from rfl,
          ih hc' (syncBtreeStep c m target p0) x, hx, hk0']
      rw [hL, aget_cons, if_pos hx.symm]
      cases hocc : aget target x with
      | some r0 =>
        have hocc' : aget target p0.1 = some r0 := hx ▸ hocc
        have hstep : syncBtreeStep c m target p0 = mutateAt p0.1 (m p0.2) target := by
          unfold syncBtreeStep
          rw [hocc']
        rw [hstep, hx, aget_mutateAt_self, hocc']
        rfl
      | none =>
        have hocc' : aget target p0.1 = none := hx ▸ hocc
        have hstep : syncBtreeStep c m target p0 = btreeInsert p0.1 (c p0.2) target := by
          unfold syncBtreeStep
          rw [hocc']
        rw [hstep, aget_btreeInsert, if_pos hx.symm]
    · have hstepx : aget (syncBtreeStep c m target p0) x = aget target x := by
        unfold syncBtreeStep
        cases hocc : aget target p0.1 with
        | some r0 => exact aget_mutateAt_ne hx _ _
        | none =>
          show aget (btreeInsert p0.1 (c p0.2) target) x = aget target x
          rw [aget_btreeInsert, if_neg (fun he : p0.1 = x => hx he.symm)]
      rw [show syncBtreePhase1 (p0 :: rest) target c m =
        syncBtreePhase1 rest (syncBtreeStep c m target p0) c m from rfl,
        ih hc' (syncBtreeStep c m target p0) x, hstepx,
        aget_cons, if_neg (fun he : p0.1 = x => hx he.symm)]

theorem nodupKeys_syncBtreePhase1 {T R : Type} {c : T → R} {m : T → R → R} :
    ∀ (config : List (String × T)) (target : List (String × R)), NodupKeys target →
      NodupKeys (syncBtreePhase1 config target c m) := by
  intro config
  induction config with
  | nil => intro target ht; exact ht
  | cons p0 rest ih =>
    intro target ht
    show NodupKeys (syncBtreePhase1 rest (syncBtreeStep c m target p0) c m)
    apply ih
    unfold syncBtreeStep
    cases hocc : aget target p0.1 with
    | some r0 =>
      show NodupKeys (mutateAt p0.1 (m p0.2) target)
      rw [NodupKeys, akeys_mutateAt]
      exact ht
    | none =>
      show NodupKeys (btreeInsert p0.1 (c p0.2) target)
      exact nodupKeys_btreeInsert ht (aget_eq_none_iff.mp hocc) _

theorem aget_syncBtreemap {config : List (String × T)} {target : List (String × R)}
    (hc : NodupKeys config) (ht : NodupKeys target) (c : T → R) (m : T → R → R)
    (x : String) :
    aget (syncBtreemap config target c m) x =
      match aget config x with
      | none => none
      | some t =>
        match aget target x with
        | some r => some (m t r)
        | none => some (c t) := by
  show aget ((staleKeys config target).foldl (fun acc k => eraseKey k acc)
    (syncBtreePhase1 config target c m)) x = _
  rw [aget_foldl_eraseKey _ (nodupKeys_syncBtreePhase1 config target ht) x]
  by_cases hstale : x ∈ staleKeys config target
  · rw [if_pos hstale]
    have h2 := (List.mem_filter.mp hstale).2
    have hcx : aget config x = none := by
      cases h : aget config x
      · rfl
      · rw [h] at h2; cases h2
    rw [hcx]
  · rw [if_neg hstale, aget_syncBtreePhase1 config hc target x]
    cases hcx : aget config x with
    | none =>
      have hxt : x ∉ akeys target := fun hm =>
        hstale (List.mem_filter.mpr ⟨hm, by rw [hcx]; rfl⟩)
      exact aget_eq_none_iff.mpr hxt
    | some t => rfl

theorem nodupKeys_syncBtreemap {config : List (String × T)} {target : List (String × R)}
    (ht : NodupKeys target) (c : T → R) (m : T → R → R) :
    NodupKeys (syncBtreemap config target c m) :=
  nodupKeys_foldl_eraseKey _ (nodupKeys_syncBtreePhase1 config target ht)

/-! #### Identity and idempotence of the sync passes -/

theorem syncPhase1_id {T R : Type} {c : T → R} {m : T → R → R} :
    ∀ (config : List (String × T)) (target : List (String × R)), NodupKeys target →
      (∀ p ∈ config, ∃ r, aget target p.1 = some r ∧ m p.2 r = r) →
      syncPhase1 config target c m = target := by
  intro config
  induction config with
  | nil => intro target _ _; rfl
  | cons p0 rest ih =>
    intro target ht h
    obtain ⟨r0, hr0, hm0⟩ := h p0 (List.mem_cons_self _ _)
    have hstep : syncStep c m target p0 = target := by
      unfold syncStep
      rw [hr0]
      apply mutateAt_eq_self
      intro q hq hq1
      have hq2 : aget target p0.1 = some q.2 := hq1 ▸ aget_of_mem_of_nodup ht hq
      rw [hq2] at hr0
      injection hr0 with he
      rw [he]
      exact hm0
    show syncPhase1 rest (syncStep c m target p0) c m = target
    rw [hstep]
    exact ih target ht fun p hp => h p (List.mem_cons_of_mem _ hp)

theorem syncBtreePhase1_id {T R : Type} {c : T → R} {m : T → R → R} :
    ∀ (config : List (String × T)) (target : List (String × R)), NodupKeys target →
      (∀ p ∈ config, ∃ r, aget target p.1 = some r ∧ m p.2 r = r) →
      syncBtreePhase1 config target c m = target := by
  intro config
  induction config with
  | nil => intro target _ _; rfl
  | cons p0 rest ih =>
    intro target ht h
    obtain ⟨r0, hr0, hm0⟩ := h p0 (List.mem_cons_self _ _)
    have hstep : syncBtreeStep c m target p0 = target := by
      unfold syncBtreeStep
      rw [hr0]
      apply mutateAt_eq_self
      intro q hq hq1
      have hq2 : aget target p0.1 = some q.2 := hq1 ▸ aget_of_mem_of_nodup ht hq
      rw [hq2] at hr0
      injection hr0 with he
      rw [he]
      exact hm0
    show syncBtreePhase1 rest (syncBtreeStep c m target p0) c m = target
    rw [hstep]
    exact ih target ht fun p hp => h p (List.mem_cons_of_mem _ hp)

theorem staleKeys_eq_nil {config : List (String × T)} {target : List (String × R)}
    (h : ∀ x ∈ akeys target, aget config x ≠ none) : staleKeys config target = [] := by
  unfold staleKeys
  rw [List.filter_eq_nil_iff]
  intro k hk hkn
  cases hcx : aget config k with
  | none => exact h k hk hcx
  | some t =>
    rw [hcx] at hkn
    cases hkn

theorem syncIndexmap_idem {config : List (String × T)} {target : List (String × R)}
    (hc : NodupKeys config) (ht : NodupKeys target) (c c₂ : T → R) (m : T → R → R)
    (hmm : ∀ t r, m t (m t r) = m t r) (hmc : ∀ t, m t (c t) = c t) :
    syncIndexmap config (syncIndexmap config target c m) c₂ m =
      syncIndexmap config target c m := by
  have hnS : NodupKeys (syncIndexmap config target c m) :=
    nodupKeys_syncIndexmap hc ht c m
  have hSmem : ∀ x ∈ akeys (syncIndexmap config target c m), aget config x ≠ none := by
    intro x hx hcx
    have h1 : aget (syncIndexmap config target c m) x = none := by
      rw [aget_syncIndexmap hc ht c m x, hcx]
    exact (aget_eq_none_iff.mp h1) hx
  have hstale : staleKeys config (syncIndexmap config target c m) = [] :=
    staleKeys_eq_nil hSmem
  have hfix : ∀ p ∈ config, ∃ r,
      aget (syncIndexmap config target c m) p.1 = some r ∧ m p.2 r = r := by
    intro p hp
    have hcp : aget config p.1 = some p.2 := aget_of_mem_of_nodup hc hp
    cases htp : aget target p.1 with
    | some r0 =>
      refine ⟨m p.2 r0, ?_, hmm p.2 r0⟩
      rw [aget_syncIndexmap hc ht c m p.1, hcp, htp]
    | none =>
      refine ⟨c p.2, ?_, hmc p.2⟩
      rw [aget_syncIndexmap hc ht c m p.1, hcp, htp]
  have hexp : syncIndexmap config (syncIndexmap config target c m) c₂ m =
      (staleKeys config (syncIndexmap config target c m)).foldl
        (fun acc k => swapRemove k acc)
        (syncPhase1 config (syncIndexmap config target c m) c₂ m) := rfl
  rw [hexp, hstale, List.foldl_nil]
  exact syncPhase1_id config _ hnS hfix

theorem syncBtreemap_idem {config : List (String × T)} {target : List (String × R)}
    (hc : NodupKeys config) (ht : NodupKeys target) (c c₂ : T → R) (m : T → R → R)
    (hmm : ∀ t r, m t (m t r) = m t r) (hmc : ∀ t, m t (c t) = c t) :
    syncBtreemap config (syncBtreemap config target c m) c₂ m =
      syncBtreemap config target c m := by
  have hnS : NodupKeys (syncBtreemap config target c m) :=
    nodupKeys_syncBtreemap ht c m
  have hSmem : ∀ x ∈ akeys (syncBtreemap config target c m), aget config x ≠ none := by
    intro x hx hcx
    have h1 : aget (syncBtreemap config target c m) x = none := by
      rw [aget_syncBtreemap hc ht c m x, hcx]
    exact (aget_eq_none_iff.mp h1) hx
  have hstale : staleKeys config (syncBtreemap config target c m) = [] :=
    staleKeys_eq_nil hSmem
  have hfix : ∀ p ∈ config, ∃ r,
      aget (syncBtreemap config target c m) p.1 = some r ∧ m p.2 r = r := by
    intro p hp
    have hcp : aget config p.1 = some p.2 := aget_of_mem_of_nodup hc hp
    cases htp : aget target p.1 with
    | some r0 =>
      refine ⟨m p.2 r0, ?_, hmm p.2 r0⟩
      rw [aget_syncBtreemap hc ht c m p.1, hcp, htp]
    | none =>
      refine ⟨c p.2, ?_, hmc p.2⟩
      rw [aget_syncBtreemap hc ht c m p.1, hcp, htp]
  have hexp : syncBtreemap config (syncBtreemap config target c m) c₂ m =
      (staleKeys config (syncBtreemap config target c m)).foldl
        (fun acc k => eraseKey k acc)
        (syncBtreePhase1 config (syncBtreemap config target c m) c₂ m) := rfl
  rw [hexp, hstale, List.foldl_nil]
  exact syncBtreePhase1_id config _ hnS hfix

/-! #### Field-wise equality of Things and mutator laws -/

theorem thingFieldsEq {a b : Thing} (h1 : a.metadata = b.metadata)
    (h2 : a.reported_state = b.reported_state) (h3 : a.desired_state = b.desired_state)
    (h4 : a.synthetic_state = b.synthetic_state)
    (h5 : a.reconciliation.changed = b.reconciliation.changed)
    (h6 : a.reconciliation.deleting = b.reconciliation.deleting)
    (h7 : a.reconciliation.timers = b.reconciliation.timers) : a = b := by
  obtain ⟨am, ar, ad, as1, ⟨ac, adl, at1⟩⟩ := a
  obtain ⟨bm, br, bd, bs1, ⟨bc, bdl, bt1⟩⟩ := b
  dsimp at h1 h2 h3 h4 h5 h6 h7
  subst h1 h2 h3 h4 h5 h6 h7
  rfl

theorem synMutate_idem (t : Synthetic) (r : SyntheticFeature) :
    synMutate t (synMutate t r) = synMutate t r := rfl

theorem synMutate_create (now : Nat) (t : Synthetic) :
    synMutate t (synCreate now t) = synCreate now t := rfl

theorem chgMutate_idem (t : TemplCode) (r : Changed) :
    chgMutate t (chgMutate t r) = chgMutate t r := rfl

theorem chgMutate_create (t : TemplCode) :
    chgMutate t (chgCreate t) = chgCreate t := rfl

theorem delMutate_idem (t : TemplCode) (r : Deleting) :
    delMutate t (delMutate t r) = delMutate t r := rfl

theorem delMutate_create (t : TemplCode) :
    delMutate t (delCreate t) = delCreate t := rfl

theorem timerMutate_idem (t : TemplTimer) (r : Timer) :
    timerMutate t (timerMutate t r) = timerMutate t r := rfl

theorem timerMutate_create (t : TemplTimer) :
    timerMutate t (timerCreate t) = timerCreate t := rfl

/-! #### Call-trace facts about the Thing-provisioning steps -/

theorem ensureSensor_no_registry_write (w : World) (cfg : ReconcilerConfig)
    (template : ThingTemplate) (now : Nat) (device : Device) :
    ∀ c ∈ (ensureSensor w cfg template now device).2, isRegistryWrite c = false := by
  simp only [ensureSensor]
  repeat' split
  all_goals simp [isRegistryWrite]

theorem ensureDevice_no_registry_write (w : World) (cfg : ReconcilerConfig)
    (device : Device) :
    ∀ c ∈ (ensureDevice w cfg device).2, isRegistryWrite c = false := by
  simp only [ensureDevice]
  repeat' split
  all_goals simp [isRegistryWrite]

theorem ensureSensor_first_call (w : World) (cfg : ReconcilerConfig)
    (template : ThingTemplate) (now : Nat) (device : Device) :
    (ensureSensor w cfg template now device).2.head? =
      some (Call.getThing cfg.application (sensorThing device.metadata.name)) := by
  simp only [ensureSensor]
  repeat' split
  all_goals rfl

end Lemmas

/-! ### Claim theorems -/

/-- C1: `TwinReconciler::changed` routes to Removing exactly when the device
fails the configured label selector or carries a soft-deletion marker (the
selector is tested first, then the deletion timestamp), and routes to
Ensuring otherwise; both Removing conditions invoke the very same
`removing` behaviour. -/
theorem changed_routes_on_selector_and_soft_delete (w : World) (cfg : ReconcilerConfig)
    (template : ThingTemplate) (now : Nat) (device : Device) :
    changed w cfg template now device =
      if selMatches cfg device = false ∨ device.metadata.deletion_timestamp.isSome = true
      then removing w cfg device
      else ensure w cfg template now device := by
  unfold changed
  by_cases h1 : selMatches cfg device = true
  · rw [if_neg (not_not_intro h1)]
    by_cases h2 : device.metadata.deletion_timestamp.isSome = true
    · rw [if_pos h2, if_pos (Or.inr h2)]
    · rw [if_neg h2, if_neg (by
        rintro (hl | hr)
        · rw [h1] at hl
          exact Bool.noConfusion hl
        · exact h2 hr)]
  · rw [if_pos h1, if_pos (Or.inl (by rwa [Bool.not_eq_true] at h1))]

/-- C10: one pass of the template differencer modifies only the
`synthetic_state` map and the three reconciliation sub-maps of the Thing;
its metadata (identity and annotations) and its reported/desired state are
untouched. -/
theorem configure_sensor_frame (template : ThingTemplate) (now : Nat) (thing : Thing) :
    (configureSensor template now thing).metadata = thing.metadata ∧
    (configureSensor template now thing).reported_state = thing.reported_state ∧
    (configureSensor template now thing).desired_state = thing.desired_state :=
  ⟨rfl, rfl, rfl⟩

/-- C7: `missing(device)` issues exactly one external call — deleting the
sensor-facet Thing, whose name is `device ++ "/sensor"` — and no registry
write and no device-facet call; a successful delete (whether or not the
Thing existed) and a plain not-found response both give Complete, and any
other deletion error is propagated. -/
theorem missing_deletes_only_sensor (w : World) (cfg : ReconcilerConfig) (device : String) :
    (∀ b, w.deleteThing cfg.application (sensorThing device) = .ok b →
      missing w cfg device =
        (.ok .Complete, [Call.deleteThing cfg.application (sensorThing device)])) ∧
    (w.deleteThing cfg.application (sensorThing device) = .error (.Response NOT_FOUND) →
      missing w cfg device =
        (.ok .Complete, [Call.deleteThing cfg.application (sensorThing device)])) ∧
    (∀ e, w.deleteThing cfg.application (sensorThing device) = .error e →
      e ≠ .Response NOT_FOUND →
      missing w cfg device =
        (.error e, [Call.deleteThing cfg.application (sensorThing device)])) ∧
    sensorThing device = device ++ "/sensor" := by
  refine ⟨?_, ?_, ?_, rfl⟩
  · intro b hb
    simp only [missing]
    rw [hb]
  · intro hb
    simp only [missing]
    rw [hb]
    rfl
  · intro e he hne
    simp only [missing]
    rw [he]
    cases e with
    | Response s =>
      have hs : ¬ s = NOT_FOUND := fun h => hne (by rw [h])
      simp only [if_neg hs]
    | Request msg => rfl
    | Service code err => rfl
    | Internal msg => rfl

/-- Witness for C7 at a concrete world and device id. -/
theorem missing_deletes_only_sensor_witness :
    okWorld.deleteThing sampleCfg.application (sensorThing "dev1") = .ok true ∧
    missing okWorld sampleCfg "dev1" =
      (.ok .Complete, [Call.deleteThing "app" "dev1/sensor"]) :=
  ⟨rfl, (missing_deletes_only_sensor okWorld sampleCfg "dev1").1 true rfl⟩

/-- C2: one template-differencer pass, on each of the four families
(synthetic features, changed handlers, deleting handlers, timers): a
template key absent from the Thing's map gets a freshly created record
whose definition-controlled fields come from the template and whose runtime
fields start at their defaults (null value, sync timestamp, empty log, not
stopped, no run timestamps); a key present in both keeps its entry with
only the definition-controlled fields (type / code / period) overwritten
and every runtime field untouched; a Thing key absent from the template is
deleted. -/
theorem configure_sensor_differencer (template : ThingTemplate) (thing : Thing)
    (now : Nat) (k : String) (htpl : TemplateWF template) (hth : ThingWF thing) :
    (aget (configureSensor template now thing).synthetic_state k =
      match aget template.synthetics k with
      | none => none
      | some d =>
        match aget thing.synthetic_state k with
        | some r => some { r with type := d.toType }
        | none => some { type := d.toType, value := Value.null, last_update := now }) ∧
    (aget (configureSensor template now thing).reconciliation.changed k =
      match aget template.reconciliation.changed k with
      | none => none
      | some d =>
        match aget thing.reconciliation.changed k with
        | some r => some { r with code := d.toCode }
        | none => some { code := d.toCode, last_log := [] }) ∧
    (aget (configureSensor template now thing).reconciliation.deleting k =
      match aget template.reconciliation.deleting k with
      | none => none
      | some d =>
        match aget thing.reconciliation.deleting k with
        | some r => some { r with code := d.toCode }
        | none => some { code := d.toCode }) ∧
    (aget (configureSensor template now thing).reconciliation.timers k =
      match aget template.reconciliation.timers k with
      | none => none
      | some d =>
        match aget thing.reconciliation.timers k with
        | some r => some { r with code := d.code.toCode, period := d.period }
        | none =>
          some
            { code := d.code.toCode, period := d.period, stopped := false,
              last_started := none, last_run := none, last_log := [],
              initial_delay := none }) := by
  obtain ⟨h1, h2, h3, h4⟩ := htpl
  obtain ⟨g1, g2, g3, g4⟩ := hth
  refine ⟨?_, ?_, ?_, ?_⟩
  · have e1 : (configureSensor template now thing).synthetic_state =
        syncBtreemap template.synthetics thing.synthetic_state (synCreate now) synMutate :=
      rfl
    rw [e1, aget_syncBtreemap h1 g1 (synCreate now) synMutate k]
    cases aget template.synthetics k with
    | none => rfl
    | some d => cases aget thing.synthetic_state k <;> rfl
  · have e1 : (configureSensor template now thing).reconciliation.changed =
        syncIndexmap template.reconciliation.changed thing.reconciliation.changed
          chgCreate chgMutate := rfl
    rw [e1, aget_syncIndexmap h2 g2 chgCreate chgMutate k]
    cases aget template.reconciliation.changed k with
    | none => rfl
    | some d => cases aget thing.reconciliation.changed k <;> rfl
  · have e1 : (configureSensor template now thing).reconciliation.deleting =
        syncIndexmap template.reconciliation.deleting thing.reconciliation.deleting
          delCreate delMutate := rfl
    rw [e1, aget_syncIndexmap h3 g3 delCreate delMutate k]
    cases aget template.reconciliation.deleting k with
    | none => rfl
    | some d => cases aget thing.reconciliation.deleting k <;> rfl
  · have e1 : (configureSensor template now thing).reconciliation.timers =
        syncIndexmap template.reconciliation.timers thing.reconciliation.timers
          timerCreate timerMutate := rfl
    rw [e1, aget_syncIndexmap h4 g4 timerCreate timerMutate k]
    cases aget template.reconciliation.timers k with
    | none => rfl
    | some d => cases aget thing.reconciliation.timers k <;> rfl

/-- Witness for C2 at the sample template and Thing: the pre-existing
changed handler keeps its runtime log while its code is overwritten. -/
theorem configure_sensor_differencer_witness :
    TemplateWF sampleTemplate ∧ ThingWF sampleThing ∧
    aget (configureSensor sampleTemplate 7 sampleThing).reconciliation.changed "log" =
      some { code := .javaScript "chg()", last_log := ["entry"] } := by
  refine ⟨by decide, by decide, ?_⟩
  have h := (configure_sensor_differencer sampleTemplate sampleThing 7 "log"
    (by decide) (by decide)).2.1
  rw [h]
  rfl

/-- C8: applying the template differencer twice with the same template (at
any pair of sync timestamps) leaves the Thing exactly as after the first
pass: the second pass changes nothing. -/
theorem configure_sensor_idempotent (template : ThingTemplate) (thing : Thing)
    (now now' : Nat) (htpl : TemplateWF template) (hth : ThingWF thing) :
    configureSensor template now' (configureSensor template now thing) =
      configureSensor template now thing := by
  obtain ⟨h1, h2, h3, h4⟩ := htpl
  obtain ⟨g1, g2, g3, g4⟩ := hth
  apply thingFieldsEq
  · rfl
  · rfl
  · rfl
  · exact syncBtreemap_idem h1 g1 (synCreate now) (synCreate now') synMutate
      synMutate_idem (synMutate_create now)
  · exact syncIndexmap_idem h2 g2 chgCreate chgCreate chgMutate
      chgMutate_idem chgMutate_create
  · exact syncIndexmap_idem h3 g3 delCreate delCreate delMutate
      delMutate_idem delMutate_create
  · exact syncIndexmap_idem h4 g4 timerCreate timerCreate timerMutate
      timerMutate_idem timerMutate_create

/-- Witness for C8 at the sample template and Thing, with two different
sync timestamps. -/
theorem configure_sensor_idempotent_witness :
    TemplateWF sampleTemplate ∧ ThingWF sampleThing ∧
    configureSensor sampleTemplate 2 (configureSensor sampleTemplate 1 sampleThing) =
      configureSensor sampleTemplate 1 sampleThing :=
  ⟨by decide, by decide,
    configure_sensor_idempotent sampleTemplate sampleThing 1 2 (by decide) (by decide)⟩

/-- C9: `Operator::handle_event` returns success with no external call at
all (neither reconciler work nor registry lookup) for an event whose type
differs from the fixed registry-changed type, and likewise for an event
lacking the device extension attribute. -/
theorem handle_event_ignores (w : World) (app : String) (cfg : ReconcilerConfig)
    (template : ThingTemplate) (now fuel : Nat) (event : Event) :
    (event.ty ≠ REGISTRY_TYPE →
      handleEvent w app cfg template now fuel event = (some (.ok ()), [])) ∧
    (aget event.extensions "device" = none →
      handleEvent w app cfg template now fuel event = (some (.ok ()), [])) := by
  constructor
  · intro h
    unfold handleEvent
    rw [if_pos h]
  · intro h
    unfold handleEvent
    by_cases hty : event.ty ≠ REGISTRY_TYPE
    · rw [if_pos hty]
    · rw [if_neg hty, h]

/-- Witness for C9 at a concrete wrong-type event and a concrete
device-less event. -/
theorem handle_event_ignores_witness :
    otherEvent.ty ≠ REGISTRY_TYPE ∧
    handleEvent okWorld "app" sampleCfg sampleTemplate 0 3 otherEvent =
      (some (.ok ()), []) ∧
    aget noDeviceEvent.extensions "device" = none ∧
    handleEvent okWorld "app" sampleCfg sampleTemplate 0 3 noDeviceEvent =
      (some (.ok ()), []) :=
  ⟨by decide, (handle_event_ignores okWorld "app" sampleCfg sampleTemplate 0 3
      otherEvent).1 (by decide),
    by decide, (handle_event_ignores okWorld "app" sampleCfg sampleTemplate 0 3
      noDeviceEvent).2 (by decide)⟩

/-- C4 counterexample: `sync_indexmap` deletes stale keys with
`IndexMap::remove`, which is `swap_remove`: removing key b from the map
[a, b, c, d] moves the last entry d into b's slot.  With a template keeping
a, c, d, the surviving entries come out in order a, d, c — not their
original relative order a, c, d, refuting the ordering claim. -/
theorem sync_order_counterexample :
    akeys ((configureSensor orderTemplate 0 orderThing).reconciliation.changed) =
      ["a", "d", "c"] ∧
    (["a", "d", "c"] : List String) ≠ ["a", "c", "d"] :=
  ⟨rfl, by decide⟩

/-- C4 amended: when no deletion occurs — every existing key also occurs in
the template — a `sync_indexmap` pass keeps the surviving entries in their
original insertion order, mutating them in place, and appends the newly
created entries after them in template order.  (When stale keys are
deleted, indexmap's swap-remove may reorder the survivors.) -/
theorem sync_indexmap_order_amended {T R : Type} (config : List (String × T))
    (target : List (String × R)) (c : T → R) (m : T → R → R)
    (hc : NodupKeys config) (h : ∀ x ∈ akeys target, aget config x ≠ none) :
    syncIndexmap config target c m =
      target.map (applyMut config m) ++ createdOf config target c := by
  show (staleKeys config target).foldl (fun acc k => swapRemove k acc)
    (syncPhase1 config target c m) = _
  rw [staleKeys_eq_nil h, List.foldl_nil]
  exact syncPhase1_structure config hc target

/-- Witness for the amended C4 at a concrete template map and target map. -/
theorem sync_indexmap_order_amended_witness :
    NodupKeys orderTemplate.reconciliation.changed ∧
    (∀ x ∈ akeys orderTarget, aget orderTemplate.reconciliation.changed x ≠ none) ∧
    syncIndexmap orderTemplate.reconciliation.changed orderTarget chgCreate chgMutate =
      orderTarget.map (applyMut orderTemplate.reconciliation.changed chgMutate) ++
        createdOf orderTemplate.reconciliation.changed orderTarget chgCreate :=
  ⟨by decide, by decide,
    sync_indexmap_order_amended orderTemplate.reconciliation.changed orderTarget
      chgCreate chgMutate (by decide) (by decide)⟩

/-- C5: on a device lacking the finalizer, Ensuring issues exactly one
external call — the registry write adding the finalizer — and no Thing API
call, returning Retry both on success and on a conflict in either error
variant, and propagating any other write error; on a device already
carrying the finalizer, Ensuring issues no registry write at all and its
first external call is the sensor-facet Thing fetch (Thing provisioning). -/
theorem ensure_finalizer_protocol (w : World) (cfg : ReconcilerConfig)
    (template : ThingTemplate) (now : Nat) (device : Device) :
    (FINALIZER ∉ device.metadata.finalizers →
      (w.updateDevice (withFinalizer device) = .ok () →
        ensure w cfg template now device =
          (.ok .Retry, [Call.updateDevice (withFinalizer device)])) ∧
      (∀ e, w.updateDevice (withFinalizer device) = .error e → isConflict e = true →
        ensure w cfg template now device =
          (.ok .Retry, [Call.updateDevice (withFinalizer device)])) ∧
      (∀ e, w.updateDevice (withFinalizer device) = .error e → isConflict e = false →
        ensure w cfg template now device =
          (.error e, [Call.updateDevice (withFinalizer device)]))) ∧
    (FINALIZER ∈ device.metadata.finalizers →
      (∀ c ∈ (ensure w cfg template now device).2, isRegistryWrite c = false) ∧
      (ensure w cfg template now device).2.head? =
        some (Call.getThing cfg.application (sensorThing device.metadata.name))) := by
  constructor
  · intro hnf
    have hfin : ensureFinalizer device.metadata FINALIZER =
        ({ device.metadata with finalizers := device.metadata.finalizers ++ [FINALIZER] },
          true) := by
      unfold ensureFinalizer
      rw [if_neg hnf]
    have hW : withFinalizer device =
        { metadata :=
            { device.metadata with
              finalizers := device.metadata.finalizers ++ [FINALIZER] } } := by
      unfold withFinalizer
      rw [hfin]
    refine ⟨?_, ?_, ?_⟩
    · intro hok
      rw [hW] at hok
      simp only [ensure, hfin]
      rw [hW, hok]
      simp
    · intro e herr hconf
      rw [hW] at herr
      simp only [ensure, hfin]
      rw [hW, herr]
      cases e with
      | Response s =>
        have hs : s = CONFLICT := by simpa [isConflict] using hconf
        subst hs
        rfl
      | Service code msg =>
        have hcode : code = CONFLICT := by simpa [isConflict] using hconf
        subst hcode
        rfl
      | Request msg => simp [isConflict] at hconf
      | Internal msg => simp [isConflict] at hconf
    · intro e herr hconf
      rw [hW] at herr
      simp only [ensure, hfin]
      rw [hW, herr]
      cases e with
      | Response s =>
        have hs : ¬ s = CONFLICT := by simpa [isConflict] using hconf
        simp [hs]
      | Service code msg =>
        have hcode : ¬ code = CONFLICT := by simpa [isConflict] using hconf
        simp [hcode]
      | Request msg => rfl
      | Internal msg => rfl
  · intro hmem
    have hfin : ensureFinalizer device.metadata FINALIZER = (device.metadata, false) := by
      unfold ensureFinalizer
      rw [if_pos hmem]
    constructor
    · intro c hc
      simp only [ensure, hfin] at hc
      rcases hs : ensureSensor w cfg template now { metadata := device.metadata }
        with ⟨r, calls⟩
      rw [hs] at hc
      have hsen : ∀ x ∈ calls, isRegistryWrite x = false := by
        intro x hx
        have := ensureSensor_no_registry_write w cfg template now
          { metadata := device.metadata } x
        rw [hs] at this
        exact this hx
      cases r with
      | error e => exact hsen c hc
      | ok o =>
        cases o with
        | Retry => exact hsen c hc
        | Complete =>
          rcases List.mem_append.mp hc with h1 | h2
          · exact hsen c h1
          · exact ensureDevice_no_registry_write w cfg
              { metadata := device.metadata } c h2
    · simp only [ensure, hfin]
      split
      · rename_i heq
        cases heq
      · split
        · rename_i e calls heq
          have h1 := ensureSensor_first_call w cfg template now { metadata := device.metadata }
          rw [heq] at h1
          exact h1
        · rename_i calls heq
          have h1 := ensureSensor_first_call w cfg template now { metadata := device.metadata }
          rw [heq] at h1
          exact h1
        · rename_i calls heq
          have h1 := ensureSensor_first_call w cfg template now { metadata := device.metadata }
          rw [heq] at h1
          cases calls with
          | nil => cases h1
          | cons a tl =>
            injection h1 with ha
            subst ha
            rfl

/-- Witness for C5 at a concrete device without the finalizer and a world
whose registry write succeeds. -/
theorem ensure_finalizer_protocol_witness :
    FINALIZER ∉ sampleDevice.metadata.finalizers ∧
    okWorld.updateDevice (withFinalizer sampleDevice) = .ok () ∧
    ensure okWorld sampleCfg sampleTemplate 0 sampleDevice =
      (.ok .Retry, [Call.updateDevice (withFinalizer sampleDevice)]) :=
  ⟨by decide, rfl,
    ((ensure_finalizer_protocol okWorld sampleCfg sampleTemplate 0 sampleDevice).1
      (by decide)).1 rfl⟩

/-- C3 counterexample: a Conflict response received while Removing (on the
registry write that removes the finalizer) is propagated as an error from
`changed`, not mapped to Retry: the claim that a Conflict is never surfaced
as an error is false. -/
theorem conflict_propagates_counterexample :
    isConflict (.Response CONFLICT) = true ∧
    (changed conflictRegistryWorld sampleCfg sampleTemplate 0 plainDevice).1 =
      .error (.Response CONFLICT) :=
  ⟨rfl, rfl⟩

/-- C3 amended: during Ensuring, a Conflict in either error variant at the
finalizer write or at the sensor-facet create/update yields Retry, and a
plain-status Conflict at the device-facet update yields Retry; but a
service-carried Conflict at the device-facet update, and any Conflict
during Removing, are propagated as errors. -/
theorem conflict_handling_amended (w : World) (cfg : ReconcilerConfig)
    (template : ThingTemplate) (now : Nat) (device : Device) (thing : Thing)
    (e : ClientError) (msg : String) :
    (FINALIZER ∉ device.metadata.finalizers → isConflict e = true →
      (∀ d, w.updateDevice d = .error e) →
      (ensure w cfg template now device).1 = .ok .Retry) ∧
    ((∀ a n, w.getThing a n = .ok (some thing)) → isConflict e = true →
      (∀ t, w.updateThing t = .error e) →
      (ensureSensor w cfg template now device).1 = .ok .Retry) ∧
    ((∀ a n, w.getThing a n = .ok none) → isConflict e = true →
      (∀ t, w.createThing t = .error e) →
      (ensureSensor w cfg template now device).1 = .ok .Retry) ∧
    ((∀ a n, w.getThing a n = .ok (some thing)) →
      (∀ t, w.updateThing t = .error (.Response CONFLICT)) →
      (ensureDevice w cfg device).1 = .ok .Retry) ∧
    ((∀ a n, w.getThing a n = .ok (some thing)) →
      (∀ t, w.updateThing t = .error (.Service CONFLICT msg)) →
      (ensureDevice w cfg device).1 = .error (.Service CONFLICT msg)) ∧
    (w.deleteThing cfg.application (sensorThing device.metadata.name) = .ok true →
      isConflict e = true → (∀ d, w.updateDevice d = .error e) →
      (removing w cfg device).1 = .error e) := by
  refine ⟨?_, ?_, ?_, ?_, ?_, ?_⟩
  · intro hnf hconf hup
    have hfin : ensureFinalizer device.metadata FINALIZER =
        ({ device.metadata with finalizers := device.metadata.finalizers ++ [FINALIZER] },
          true) := by
      unfold ensureFinalizer
      rw [if_neg hnf]
    simp only [ensure, hfin, hup]
    cases e with
    | Response s =>
      have hs : s = CONFLICT := by simpa [isConflict] using hconf
      subst hs
      rfl
    | Service code m2 =>
      have hcode : code = CONFLICT := by simpa [isConflict] using hconf
      subst hcode
      rfl
    | Request m2 => simp [isConflict] at hconf
    | Internal m2 => simp [isConflict] at hconf
  · intro hg hconf hu
    simp only [ensureSensor, hg, hu]
    cases e with
    | Response s =>
      have hs : s = CONFLICT := by simpa [isConflict] using hconf
      subst hs
      rfl
    | Service code m2 =>
      have hcode : code = CONFLICT := by simpa [isConflict] using hconf
      subst hcode
      rfl
    | Request m2 => simp [isConflict] at hconf
    | Internal m2 => simp [isConflict] at hconf
  · intro hg hconf hcr
    simp only [ensureSensor, hg, hcr]
    cases e with
    | Response s =>
      have hs : s = CONFLICT := by simpa [isConflict] using hconf
      subst hs
      rfl
    | Service code m2 =>
      have hcode : code = CONFLICT := by simpa [isConflict] using hconf
      subst hcode
      rfl
    | Request m2 => simp [isConflict] at hconf
    | Internal m2 => simp [isConflict] at hconf
  · intro hg hu
    simp only [ensureDevice, hg, hu]
    rfl
  · intro hg hu
    simp only [ensureDevice, hg, hu]
  · intro hdel hconf hup
    simp only [removing, missing, hdel, hup]
    cases e with
    | Response s =>
      have hs : s = CONFLICT := by simpa [isConflict] using hconf
      subst hs
      rfl
    | Service code m2 => rfl
    | Request m2 => rfl
    | Internal m2 => rfl

/-- Witness for the amended C3: a conflict on the finalizer-removal write
during Removing is surfaced as an error. -/
theorem conflict_handling_amended_witness :
    conflictRegistryWorld.deleteThing sampleCfg.application
      (sensorThing plainDevice.metadata.name) = .ok true ∧
    isConflict (.Response CONFLICT) = true ∧
    (removing conflictRegistryWorld sampleCfg plainDevice).1 =
      .error (.Response CONFLICT) :=
  ⟨rfl, rfl,
    (conflict_handling_amended conflictRegistryWorld sampleCfg sampleTemplate 0
      plainDevice sampleThing (.Response CONFLICT) "m").2.2.2.2.2
      rfl rfl (fun _ => rfl)⟩

/-- C6 counterexample: during Ensuring's sensor-facet update, a not-found
status carried in the service-error variant is propagated as an error
instead of being mapped to Retry, refuting the claim that every not-found
response maps to Retry regardless of the variant carrying the status. -/
theorem notfound_handling_counterexample :
    (ensureSensor serviceNotFoundWorld sampleCfg sampleTemplate 0 sampleDevice).1 =
      .error (.Service NOT_FOUND "nf") ∧
    (Except.error (.Service NOT_FOUND "nf") :
      Except ClientError Outcome) ≠ .ok .Retry :=
  ⟨rfl, fun h => Except.noConfusion h⟩

/-- C6 amended: during Ensuring's Thing provisioning, the twin-API errors
mapped to Retry are exactly: plain-status not-found/conflict and
service-carried conflict on the sensor update; plain-status or
service-carried conflict on the sensor create; and plain-status
not-found/conflict on the device update.  A service-carried not-found on
the sensor update, a plain not-found on the sensor create, and any
service-carried error on the device update are propagated as errors. -/
theorem notfound_conflict_mapping_amended (w : World) (cfg : ReconcilerConfig)
    (template : ThingTemplate) (now : Nat) (device : Device) (thing : Thing)
    (s code : Nat) (msg : String) :
    ((∀ a n, w.getThing a n = .ok (some thing)) → (s = NOT_FOUND ∨ s = CONFLICT) →
      (∀ t, w.updateThing t = .error (.Response s)) →
      (ensureSensor w cfg template now device).1 = .ok .Retry) ∧
    ((∀ a n, w.getThing a n = .ok (some thing)) →
      (∀ t, w.updateThing t = .error (.Service CONFLICT msg)) →
      (ensureSensor w cfg template now device).1 = .ok .Retry) ∧
    ((∀ a n, w.getThing a n = .ok (some thing)) →
      (∀ t, w.updateThing t = .error (.Service NOT_FOUND msg)) →
      (ensureSensor w cfg template now device).1 = .error (.Service NOT_FOUND msg)) ∧
    ((∀ a n, w.getThing a n = .ok none) →
      (∀ t, w.createThing t = .error (.Response CONFLICT)) →
      (ensureSensor w cfg template now device).1 = .ok .Retry) ∧
    ((∀ a n, w.getThing a n = .ok none) →
      (∀ t, w.createThing t = .error (.Service CONFLICT msg)) →
      (ensureSensor w cfg template now device).1 = .ok .Retry) ∧
    ((∀ a n, w.getThing a n = .ok none) →
      (∀ t, w.createThing t = .error (.Response NOT_FOUND)) →
      (ensureSensor w cfg template now device).1 = .error (.Response NOT_FOUND)) ∧
    ((∀ a n, w.getThing a n = .ok (some thing)) → (s = NOT_FOUND ∨ s = CONFLICT) →
      (∀ t, w.updateThing t = .error (.Response s)) →
      (ensureDevice w cfg device).1 = .ok .Retry) ∧
    ((∀ a n, w.getThing a n = .ok (some thing)) →
      (∀ t, w.updateThing t = .error (.Service code msg)) →
      (ensureDevice w cfg device).1 = .error (.Service code msg)) := by
  refine ⟨?_, ?_, ?_, ?_, ?_, ?_, ?_, ?_⟩
  · intro hg hs hu
    simp only [ensureSensor, hg, hu]
    rcases hs with h | h <;> subst h <;> rfl
  · intro hg hu
    simp only [ensureSensor, hg, hu]
    rfl
  · intro hg hu
    simp only [ensureSensor, hg, hu]
    rfl
  · intro hg hcr
    simp only [ensureSensor, hg, hcr]
    rfl
  · intro hg hcr
    simp only [ensureSensor, hg, hcr]
    rfl
  · intro hg hcr
    simp only [ensureSensor, hg, hcr]
    rfl
  · intro hg hs hu
    simp only [ensureDevice, hg, hu]
    rcases hs with h | h <;> subst h <;> rfl
  · intro hg hu
    simp only [ensureDevice, hg, hu]

/-- Witness for the amended C6: a plain not-found status on the sensor
update maps to Retry. -/
theorem notfound_conflict_mapping_amended_witness :
    (∀ a n, notFoundThingWorld.getThing a n = .ok (some sampleThing)) ∧
    ((NOT_FOUND : Nat) = NOT_FOUND ∨ (NOT_FOUND : Nat) = CONFLICT) ∧
    (∀ t, notFoundThingWorld.updateThing t = .error (.Response NOT_FOUND)) ∧
    (ensureSensor notFoundThingWorld sampleCfg sampleTemplate 0 sampleDevice).1 =
      .ok .Retry :=
  ⟨fun _ _ => rfl, Or.inl rfl, fun _ => rfl,
    (notfound_conflict_mapping_amended notFoundThingWorld sampleCfg sampleTemplate 0
      sampleDevice sampleThing NOT_FOUND 0 "m").1
      (fun _ _ => rfl) (Or.inl rfl) (fun _ => rfl)⟩

end TwinOperator
